import Mathlib

/-!
Shallow embedding of the client-side selection-resolution subsystem of
`src/lib/ab.ts` (art-blocks-gallery), together with theorems checking the
specification's claims about it.

Modelling conventions:
* JavaScript strings are modelled as Lean `String`, with the character-level
  routines working on the underlying `List Char`.
* Fields read from loosely-typed JSON with a `typeof x === 'string'` guard are
  modelled as `Option String` (`none` covers both an absent field and a value
  of the wrong type); likewise `Option Int` for `typeof x === 'number'`.
* Network effects are made explicit: each model takes the successive remote
  responses as an argument (a list consumed one element per fetch; an
  exhausted list behaves like a `null` response, which makes every paging
  loop terminating exactly the way a finite remote data set does).
* `Date.now()` timestamps are passed in as explicit `Int` arguments.
-/

/-- Characters treated as whitespace by JavaScript `String.prototype.trim`
(ASCII subset; only ASCII whitespace occurs in this code path). -/
def isJsWs (c : Char) : Bool :=
  c = ' ' || c = '\t' || c = '\n' || c = '\r' || c = '\x0b' || c = '\x0c'

/-- JavaScript `s.split(sep)` for a one-character separator. -/
def splitOnChar (sep : Char) : List Char → List (List Char)
  | [] => [[]]
  | c :: rest =>
    match splitOnChar sep rest with
    | [] => [[]]
    | p :: ps => if c = sep then [] :: p :: ps else (c :: p) :: ps

/-- JavaScript `parts.join(',')`. -/
def joinComma : List (List Char) → List Char
  | [] => []
  | [x] => x
  | x :: xs => x ++ ',' :: joinComma xs

/-- JavaScript `s.trim()`. -/
def jsTrim (l : List Char) : List Char :=
  ((l.dropWhile isJsWs).reverse.dropWhile isJsWs).reverse

/-- Split a string at its first `':'`: JavaScript `indexOf(':')` plus the two
`slice` calls in `parseSelection`.  `none` when there is no colon. -/
def firstColonSplit : List Char → Option (List Char × List Char)
  | [] => none
  | c :: rest =>
    if c = ':' then some ([], rest)
    else (firstColonSplit rest).map fun p => (c :: p.1, p.2)

/-- Value of a hexadecimal digit character. -/
def hexVal (c : Char) : Option Nat :=
  if '0' ≤ c ∧ c ≤ '9' then some (c.toNat - '0'.toNat)
  else if 'a' ≤ c ∧ c ≤ 'f' then some (c.toNat - 'a'.toNat + 10)
  else if 'A' ≤ c ∧ c ≤ 'F' then some (c.toNat - 'A'.toNat + 10)
  else none

/-- Read one percent-encoded byte `%HH` from the front of the list. -/
def readPctByte : List Char → Option (Nat × List Char)
  | '%' :: h1 :: h2 :: rest =>
    match hexVal h1, hexVal h2 with
    | some a, some b => some (a * 16 + b, rest)
    | _, _ => none
  | _ => none

/-- Read one percent-encoded UTF-8 continuation byte (`0x80`–`0xBF`),
returning its 6 payload bits. -/
def contByte (l : List Char) : Option (Nat × List Char) :=
  match readPctByte l with
  | some (b, r) => if 0x80 ≤ b ∧ b < 0xC0 then some (b - 0x80, r) else none
  | none => none

/-- Read one percent-encoded UTF-8 scalar (1–4 `%HH` groups) from the front of
the list; `none` models the `URIError` that `decodeURIComponent` throws on a
malformed escape sequence. -/
def readUtf8Pct (l : List Char) : Option (Char × List Char) :=
  match readPctByte l with
  | none => none
  | some (b, r1) =>
    if b < 0x80 then some (Char.ofNat b, r1)
    else if 0xC2 ≤ b ∧ b ≤ 0xDF then
      match contByte r1 with
      | some (c1, r2) => some (Char.ofNat ((b - 0xC0) * 0x40 + c1), r2)
      | none => none
    else if 0xE0 ≤ b ∧ b ≤ 0xEF then
      match contByte r1 with
      | some (c1, r2) =>
        match contByte r2 with
        | some (c2, r3) =>
          let n := (b - 0xE0) * 0x1000 + c1 * 0x40 + c2
          if 0x800 ≤ n ∧ (n < 0xD800 ∨ 0xE000 ≤ n) then some (Char.ofNat n, r3)
          else none
        | none => none
      | none => none
    else if 0xF0 ≤ b ∧ b ≤ 0xF4 then
      match contByte r1 with
      | some (c1, r2) =>
        match contByte r2 with
        | some (c2, r3) =>
          match contByte r3 with
          | some (c3, r4) =>
            let n := (b - 0xF0) * 0x40000 + c1 * 0x1000 + c2 * 0x40 + c3
            if 0x10000 ≤ n ∧ n ≤ 0x10FFFF then some (Char.ofNat n, r4) else none
          | none => none
        | none => none
      | none => none
    else none

/-- Fuel-indexed core of `decodePctList`; the fuel is an upper bound on the
number of characters still to be consumed (each step consumes at least one
character, so `l.length` fuel always suffices). -/
def decodePctAux : Nat → List Char → Option (List Char)
  | 0, l => if l.isEmpty then some [] else none
  | _ + 1, [] => some []
  | fuel + 1, c :: rest =>
    if c = '%' then
      match readUtf8Pct (c :: rest) with
      | none => none
      | some (ch, r) => (decodePctAux fuel r).map (ch :: ·)
    else (decodePctAux fuel rest).map (c :: ·)

/-- JavaScript `decodeURIComponent`: percent-escapes decode as strict UTF-8,
all other characters pass through; `none` models a thrown `URIError`. -/
def decodePctList (l : List Char) : Option (List Char) :=
  decodePctAux l.length l

/-- The `replace(/\+/g, ' ')` step of `decodeFully`. -/
def plusToSpace (l : List Char) : List Char :=
  l.map fun c => if c = '+' then ' ' else c

/-- Fuel-indexed body of the `while (true)` loop of `decodeFully`
(`src/lib/ab.ts` lines 1173–1186).  Each productive iteration strictly
shortens the string, so `length + 1` fuel is never exhausted. -/
def decodeFullyAux : Nat → List Char → List Char
  | 0, prev => prev
  | fuel + 1, prev =>
    let ws := plusToSpace prev
    match decodePctList ws with
    | none => prev
    | some next =>
      if next = prev ∨ next = ws then next else decodeFullyAux fuel next

/-- `decodeFully` from `src/lib/ab.ts`: repeatedly form-decode until the
string stops changing, returning the last good value if decoding throws. -/
def decodeFully (s : String) : String :=
  ⟨decodeFullyAux (s.data.length + 1) s.data⟩

/-- The four selection kinds of `SelectionItem.type`. -/
inductive SelKind
  | artist
  | project
  | collector
  | token
deriving DecidableEq, Repr

/-- `SelectionItem` from `src/lib/ab.ts` line 1166. -/
structure SelectionItem where
  type : SelKind
  value : String
deriving DecidableEq, Repr

/-- The literal kind tag used in the serialized form. -/
def kindStr : SelKind → List Char
  | .artist => "artist".data
  | .project => "project".data
  | .collector => "collector".data
  | .token => "token".data

/-- `serializeSelection` (`src/lib/ab.ts` lines 1168–1171): join the items as
raw `type:value` pairs with commas. -/
def serializeSelection (items : List SelectionItem) : String :=
  ⟨joinComma (items.map fun i => kindStr i.type ++ ':' :: i.value.data)⟩

/-- Recognise one of the four valid kind tags. -/
def parseKind (t : List Char) : Option SelKind :=
  if t = "artist".data then some .artist
  else if t = "project".data then some .project
  else if t = "collector".data then some .collector
  else if t = "token".data then some .token
  else none

/-- Body of the per-part loop of `parseSelection`: skip a part with no colon,
an empty kind, an unknown kind, or an empty value. -/
def parsePart (part : List Char) : Option SelectionItem :=
  match firstColonSplit part with
  | none => none
  | some (t, v) =>
    if t = [] then none
    else
      match parseKind t with
      | some k => if v = [] then none else some ⟨k, ⟨v⟩⟩
      | none => none

/-- `parseSelection` (`src/lib/ab.ts` lines 1188–1204); the `Option String`
argument models the `string | null | undefined` parameter, and the empty
string is falsy just as in `if (!param) return []`. -/
def parseSelection (param : Option String) : List SelectionItem :=
  match param with
  | none => []
  | some s =>
    if s.data = [] then []
    else
      let decoded := decodeFully s
      let raw := ((splitOnChar ',' decoded.data).map jsTrim).filter (· ≠ [])
      raw.filterMap parsePart

/-! ### C1: round-trip of the selection codec -/

/-- The claim's well-formedness condition on a value: non-empty, no comma,
no colon. -/
def claimSafeValue (v : String) : Bool :=
  !v.data.isEmpty && v.data.all fun c => !(c = ',' || c = ':')

/-- The amended well-formedness condition: additionally no `'+'`, no `'%'`,
and no trailing whitespace (all destroyed by `decodeFully` / `trim`). -/
def amendedSafeValue (v : String) : Bool :=
  (!v.data.isEmpty && v.data.all fun c => !(c = ',' || c = ':' || c = '+' || c = '%'))
    && !isJsWs ((v.data.getLast?).getD 'x')

theorem plusToSpace_eq_self {l : List Char} (h : ∀ c ∈ l, c ≠ '+') :
    plusToSpace l = l := by
  induction l with
  | nil => rfl
  | cons c rest ih =>
    simp only [plusToSpace, List.map_cons] at *
    rw [if_neg (h c (by simp))]
    have := ih fun c hc => h c (by simp [hc])
    simp only [plusToSpace] at this
    rw [this]

theorem decodePctAux_no_pct :
    ∀ (fuel : Nat) (l : List Char), l.length ≤ fuel → (∀ c ∈ l, c ≠ '%') →
      decodePctAux fuel l = some l := by
  intro fuel
  induction fuel with
  | zero =>
    intro l hl _
    have : l = [] := List.eq_nil_of_length_eq_zero (Nat.le_zero.mp hl)
    subst this
    rfl
  | succ n ih =>
    intro l hl hc
    cases l with
    | nil => rfl
    | cons c rest =>
      simp only [decodePctAux]
      rw [if_neg (hc c (by simp))]
      rw [ih rest (by simpa using Nat.le_of_succ_le_succ hl)
        (fun c hc' => hc c (by simp [hc']))]
      rfl

theorem decodeFully_eq_self {s : String}
    (h : ∀ c ∈ s.data, c ≠ '+' ∧ c ≠ '%') : decodeFully s = s := by
  unfold decodeFully decodeFullyAux
  have hws : plusToSpace s.data = s.data :=
    plusToSpace_eq_self fun c hc => (h c hc).1
  simp only [hws]
  rw [show decodePctList s.data = some s.data from
    decodePctAux_no_pct _ _ le_rfl fun c hc => (h c hc).2]
  simp

theorem splitOnChar_no_sep {sep : Char} {l : List Char}
    (h : ∀ c ∈ l, c ≠ sep) : splitOnChar sep l = [l] := by
  induction l with
  | nil => rfl
  | cons c rest ih =>
    simp only [splitOnChar]
    rw [ih fun c hc => h c (by simp [hc])]
    simp [h c (by simp)]

theorem splitOnChar_append {sep : Char} {a b : List Char}
    (h : ∀ c ∈ a, c ≠ sep) :
    splitOnChar sep (a ++ sep :: b) = a :: splitOnChar sep b := by
  induction a with
  | nil =>
    simp only [List.nil_append, splitOnChar]
    cases hb : splitOnChar sep b with
    | nil =>
      exfalso
      cases b with
      | nil => simp [splitOnChar] at hb
      | cons x xs =>
        simp only [splitOnChar] at hb
        revert hb
        cases splitOnChar sep xs with
        | nil => simp
        | cons p ps => by_cases hx : x = sep <;> simp [hx]
    | cons p ps => simp
  | cons c rest ih =>
    simp only [List.cons_append, splitOnChar, List.append_eq]
    rw [ih fun c hc => h c (by simp [hc])]
    simp [h c (by simp)]

theorem split_join {ps : List (List Char)} (hne : ps ≠ [])
    (h : ∀ p ∈ ps, ∀ c ∈ p, c ≠ ',') :
    splitOnChar ',' (joinComma ps) = ps := by
  induction ps with
  | nil => exact absurd rfl hne
  | cons p rest ih =>
    cases rest with
    | nil =>
      simp only [joinComma]
      exact splitOnChar_no_sep (h p (by simp))
    | cons q qs =>
      have : joinComma (p :: q :: qs) = p ++ ',' :: joinComma (q :: qs) := rfl
      rw [this, splitOnChar_append (h p (by simp)),
        ih (by simp) fun r hr c hc => h r (by simp [hr]) c hc]

theorem dropWhile_eq_self_of_head {p : Char → Bool} {l : List Char}
    (h : ∀ c, l.head? = some c → p c = false) : l.dropWhile p = l := by
  cases l with
  | nil => rfl
  | cons c rest =>
    rw [List.dropWhile_cons]
    simp [h c rfl]

theorem jsTrim_eq_self {l : List Char}
    (h1 : ∀ c, l.head? = some c → isJsWs c = false)
    (h2 : ∀ c, l.getLast? = some c → isJsWs c = false) : jsTrim l = l := by
  unfold jsTrim
  rw [dropWhile_eq_self_of_head h1, dropWhile_eq_self_of_head
    (by intro c hc; exact h2 c (by rwa [List.head?_reverse] at hc)),
    List.reverse_reverse]

theorem firstColonSplit_append {a b : List Char} (h : ∀ c ∈ a, c ≠ ':') :
    firstColonSplit (a ++ ':' :: b) = some (a, b) := by
  induction a with
  | nil => rfl
  | cons c rest ih =>
    simp only [List.cons_append, firstColonSplit, List.append_eq]
    rw [if_neg (h c (by simp)), ih fun c hc => h c (by simp [hc])]
    rfl

theorem mem_joinComma {c : Char} {ps : List (List Char)}
    (h : c ∈ joinComma ps) : c = ',' ∨ ∃ p ∈ ps, c ∈ p := by
  induction ps with
  | nil => simp [joinComma] at h
  | cons p rest ih =>
    cases rest with
    | nil =>
      simp only [joinComma] at h
      exact Or.inr ⟨p, by simp, h⟩
    | cons q qs =>
      have : joinComma (p :: q :: qs) = p ++ ',' :: joinComma (q :: qs) := rfl
      rw [this] at h
      rcases List.mem_append.mp h with hp | hrest
      · exact Or.inr ⟨p, by simp, hp⟩
      · rcases List.mem_cons.mp hrest with hc | hj
        · exact Or.inl hc
        · rcases ih hj with hc | ⟨r, hr, hcr⟩
          · exact Or.inl hc
          · exact Or.inr ⟨r, by simp [hr], hcr⟩

theorem kindStr_ne_nil (k : SelKind) : kindStr k ≠ [] := by
  cases k <;> decide

theorem kindStr_no_colon (k : SelKind) : ∀ c ∈ kindStr k, c ≠ ':' := by
  cases k <;> decide

theorem kindStr_no_comma (k : SelKind) : ∀ c ∈ kindStr k, c ≠ ',' := by
  cases k <;> decide

theorem kindStr_no_plus_pct (k : SelKind) :
    ∀ c ∈ kindStr k, c ≠ '+' ∧ c ≠ '%' := by
  cases k <;> decide

theorem kindStr_head_not_ws (k : SelKind) :
    ∀ c, (kindStr k).head? = some c → isJsWs c = false := by
  cases k <;> decide

theorem parseKind_kindStr (k : SelKind) : parseKind (kindStr k) = some k := by
  cases k <;> decide

theorem head?_append_left {a b : List Char} (h : a ≠ []) :
    (a ++ b).head? = a.head? := by
  cases a with
  | nil => exact absurd rfl h
  | cons c rest => rfl

theorem getLast?_append_right (a b : List Char) (h : b ≠ []) :
    (a ++ b).getLast? = b.getLast? :=
  List.getLast?_append_of_ne_nil a h

/-- One `parsePart` round-trip on a single serialized item. -/
theorem parsePart_roundtrip (k : SelKind) (v : String) (hv : v.data ≠ []) :
    parsePart (kindStr k ++ ':' :: v.data) = some ⟨k, v⟩ := by
  unfold parsePart
  rw [firstColonSplit_append (kindStr_no_colon k)]
  simp [kindStr_ne_nil k, parseKind_kindStr k, hv]

theorem amendedSafeValue_unpack {v : String} (h : amendedSafeValue v = true) :
    v.data ≠ [] ∧ (∀ c ∈ v.data, c ≠ ',' ∧ c ≠ ':' ∧ c ≠ '+' ∧ c ≠ '%') ∧
    (∀ c, v.data.getLast? = some c → isJsWs c = false) := by
  unfold amendedSafeValue at h
  simp only [Bool.and_eq_true, List.all_eq_true, Bool.not_eq_true',
    List.isEmpty_iff, decide_eq_false_iff_not] at h
  obtain ⟨⟨hne, hall⟩, hlast⟩ := h
  have hne' : v.data ≠ [] := by
    intro hnil
    rw [hnil] at hne
    simp at hne
  refine ⟨hne', ?_, ?_⟩
  · intro c hc
    have := hall c hc
    simp only [Bool.or_eq_false_iff, decide_eq_false_iff_not] at this
    exact ⟨this.1.1.1, this.1.1.2, this.1.2, this.2⟩
  · intro c hc
    rw [hc] at hlast
    simpa using hlast

theorem joinComma_ne_nil {p : List Char} {ps : List (List Char)} (h : p ≠ []) :
    joinComma (p :: ps) ≠ [] := by
  cases ps with
  | nil => simpa [joinComma] using h
  | cons q qs =>
    show p ++ ',' :: joinComma (q :: qs) ≠ []
    simp

theorem map_eq_self_of_forall {α : Type} (f : α → α) {l : List α}
    (h : ∀ x ∈ l, f x = x) : l.map f = l := by
  induction l with
  | nil => rfl
  | cons x rest ih =>
    simp only [List.map_cons, h x (by simp), ih fun x hx => h x (by simp [hx])]

theorem filter_eq_self_of_forall {α : Type} {p : α → Bool} {l : List α}
    (h : ∀ x ∈ l, p x = true) : l.filter p = l := by
  induction l with
  | nil => rfl
  | cons x rest ih =>
    rw [List.filter_cons, if_pos (h x (by simp)),
      ih fun x hx => h x (by simp [hx])]

/-- Membership decomposition for one serialized part. -/
theorem mem_part {c : Char} {k : SelKind} {v : String}
    (h : c ∈ kindStr k ++ ':' :: v.data) :
    c ∈ kindStr k ∨ c = ':' ∨ c ∈ v.data := by
  rcases List.mem_append.mp h with hk | hcv
  · exact Or.inl hk
  · rcases List.mem_cons.mp hcv with hc | hv
    · exact Or.inr (Or.inl hc)
    · exact Or.inr (Or.inr hv)

theorem filterMap_parsePart_roundtrip (items : List SelectionItem)
    (h : ∀ i ∈ items, i.value.data ≠ []) :
    ((items.map fun i => kindStr i.type ++ ':' :: i.value.data).filterMap
      parsePart) = items := by
  induction items with
  | nil => rfl
  | cons i rest ih =>
    simp only [List.map_cons, List.filterMap_cons,
      parsePart_roundtrip i.type i.value (h i (by simp))]
    rw [ih fun j hj => h j (by simp [hj])]

/-- C1.  The claim's round-trip property fails on the code: `parseSelection`
first runs `decodeFully`, which converts `'+'` to a space (and percent-decodes
repeatedly), so the well-formed item `token:a+b` — valid kind, non-empty
value, no comma and no colon — comes back as `token:a b`. -/
theorem C1_roundtrip_counterexample :
    claimSafeValue "a+b" = true ∧
    parseSelection (some (serializeSelection [⟨SelKind.token, "a+b"⟩]))
      ≠ [⟨SelKind.token, "a+b"⟩] := by
  constructor
  · decide
  · decide

/-- C1 (amended).  For every selection list whose items have one of the four
valid kinds and whose values are non-empty, contain no comma, colon, plus
sign or percent sign, and do not end in whitespace,
`parseSelection (serializeSelection items)` returns the same kind/value pairs
in the same order. -/
theorem C1_roundtrip_amended (items : List SelectionItem)
    (h : ∀ i ∈ items, amendedSafeValue i.value = true) :
    parseSelection (some (serializeSelection items)) = items := by
  cases items with
  | nil => decide
  | cons i0 rest =>
    have hv := fun i hi => amendedSafeValue_unpack (h i hi)
    have hchar : ∀ c ∈ joinComma (((i0 :: rest)).map
        fun i => kindStr i.type ++ ':' :: i.value.data), c ≠ '+' ∧ c ≠ '%' := by
      intro c hc
      rcases mem_joinComma hc with hcomma | ⟨p, hp, hcp⟩
      · subst hcomma
        exact ⟨by decide, by decide⟩
      · rcases List.mem_map.mp hp with ⟨i, hi, rfl⟩
        rcases mem_part hcp with hk | hcolon | hval
        · exact kindStr_no_plus_pct i.type c hk
        · subst hcolon
          exact ⟨by decide, by decide⟩
        · exact ⟨((hv i hi).2.1 c hval).2.2.1, ((hv i hi).2.1 c hval).2.2.2⟩
    have hcommafree : ∀ p ∈ ((i0 :: rest)).map
        (fun i => kindStr i.type ++ ':' :: i.value.data), ∀ c ∈ p, c ≠ ',' := by
      intro p hp c hcp
      rcases List.mem_map.mp hp with ⟨i, hi, rfl⟩
      rcases mem_part hcp with hk | hcolon | hval
      · exact kindStr_no_comma i.type c hk
      · subst hcolon
        decide
      · exact ((hv i hi).2.1 c hval).1
    have hne : joinComma (((i0 :: rest)).map
        fun i => kindStr i.type ++ ':' :: i.value.data) ≠ [] := by
      simp only [List.map_cons]
      exact joinComma_ne_nil (by simp [kindStr_ne_nil i0.type])
    show parseSelection (some ⟨joinComma (((i0 :: rest)).map
      fun i => kindStr i.type ++ ':' :: i.value.data)⟩) = i0 :: rest
    unfold parseSelection
    simp only [if_neg hne]
    rw [show decodeFully ⟨joinComma (((i0 :: rest)).map
        fun i => kindStr i.type ++ ':' :: i.value.data)⟩ = ⟨joinComma (((i0 :: rest)).map
        fun i => kindStr i.type ++ ':' :: i.value.data)⟩ from decodeFully_eq_self hchar]
    rw [show (⟨joinComma (((i0 :: rest)).map
        fun i => kindStr i.type ++ ':' :: i.value.data)⟩ : String).data
      = joinComma (((i0 :: rest)).map
        fun i => kindStr i.type ++ ':' :: i.value.data) from rfl]
    rw [split_join (by simp) hcommafree]
    rw [map_eq_self_of_forall jsTrim ?htrim]
    rw [filter_eq_self_of_forall ?hfilter]
    · exact filterMap_parsePart_roundtrip _ fun i hi => (hv i hi).1
    case htrim =>
      intro p hp
      rcases List.mem_map.mp hp with ⟨i, hi, rfl⟩
      refine jsTrim_eq_self ?_ ?_
      · intro c hc
        rw [head?_append_left (kindStr_ne_nil i.type)] at hc
        exact kindStr_head_not_ws i.type c hc
      · intro c hc
        rw [getLast?_append_right _ _ (by simp)] at hc
        have : (':' :: i.value.data).getLast? = i.value.data.getLast? := by
          have := getLast?_append_right [':'] i.value.data (hv i hi).1
          simpa using this
        rw [this] at hc
        exact (hv i hi).2.2 c hc
    case hfilter =>
      intro p hp
      rcases List.mem_map.mp hp with ⟨i, hi, rfl⟩
      simp [kindStr_ne_nil i.type]

/-- Witness for `C1_roundtrip_amended` at a concrete two-item selection. -/
theorem C1_roundtrip_amended_witness :
    (∀ i ∈ [⟨SelKind.project, "Chromie Squiggle"⟩,
        (⟨SelKind.token, "0xab-42"⟩ : SelectionItem)],
      amendedSafeValue i.value = true) ∧
    parseSelection (some (serializeSelection
        [⟨SelKind.project, "Chromie Squiggle"⟩, ⟨SelKind.token, "0xab-42"⟩]))
      = [⟨SelKind.project, "Chromie Squiggle"⟩, ⟨SelKind.token, "0xab-42"⟩] :=
  ⟨by decide, C1_roundtrip_amended _ (by decide)⟩

/-! ### The request cache and retry layer (`graphqlRequest`) -/

/-- One GraphQL HTTP response, as far as `graphqlRequest` inspects it
(`src/lib/ab.ts` lines 86–118).  `errorCodes` lists the
`extensions.code` value of each entry of the `errors` array (`none` when that
entry has no string code); an absent or non-array `errors` field is the empty
list.  `data` is the `data` field (`none` when absent). -/
structure GqlResponse (D : Type) where
  ok : Bool
  errorCodes : List (Option String)
  data : Option D
deriving Repr

/-- The rate-limit test of lines 95–100: some error entry carries the
structured code `rate-limit-exceeded`. -/
def rateLimited {D : Type} (r : GqlResponse D) : Bool :=
  r.errorCodes.any (· = some "rate-limit-exceeded")

/-- `CacheEntry` from `src/lib/ab.ts` lines 10–14. -/
structure CacheEntry (D : Type) where
  data : Option D
  timestamp : Int
  ttl : Int
deriving Repr, DecidableEq

/-- `CACHE_TTL = 5 * 60 * 1000` (five minutes). -/
def CACHE_TTL : Int := 5 * 60 * 1000

/-- `isExpired` from lines 35–37. -/
def isExpired {D : Type} (now : Int) (e : CacheEntry D) : Bool :=
  now - e.timestamp > e.ttl

theorem dropWhile_length_le {α : Type} (p : α → Bool) (l : List α) :
    (l.dropWhile p).length ≤ l.length := by
  induction l with
  | nil => simp
  | cons c rest ih =>
    rw [List.dropWhile_cons]
    by_cases h : p c
    · simp only [h, if_pos]
      exact le_trans ih (by simp)
    · simp [h]

/-- Structural core of `collapseWs`: `prevWs` records whether the previous
character was whitespace (in which case further whitespace is dropped rather
than emitted). -/
def collapseWsAux : Bool → List Char → List Char
  | _, [] => []
  | prevWs, c :: rest =>
    if isJsWs c then
      if prevWs then collapseWsAux true rest
      else ' ' :: collapseWsAux true rest
    else c :: collapseWsAux false rest

/-- Collapse every maximal whitespace run to a single space:
`query.replace(/\s+/g, ' ')`. -/
def collapseWs (l : List Char) : List Char := collapseWsAux false l

/-- `getCacheKey` (lines 31–33): the whitespace-normalised query text plus the
variables object (`JSON.stringify` of the pair is modelled by the pair
itself). -/
structure CacheKey (V : Type) where
  query : String
  vars : V
deriving DecidableEq

def getCacheKey {V : Type} (query : String) (vars : V) : CacheKey V :=
  ⟨⟨jsTrim (collapseWs query.data)⟩, vars⟩

/-- `requestCache.get` (JS `Map.get`). -/
def lookupEntry {V D : Type} [DecidableEq V] :
    List (CacheKey V × CacheEntry D) → CacheKey V → Option (CacheEntry D)
  | [], _ => none
  | p :: ps, k => if p.1 = k then some p.2 else lookupEntry ps k

/-- `requestCache.set` (JS `Map.set`): replace in place when the key exists,
append otherwise. -/
def setEntry {V D : Type} [DecidableEq V] :
    List (CacheKey V × CacheEntry D) → CacheKey V → CacheEntry D →
      List (CacheKey V × CacheEntry D)
  | [], k, e => [(k, e)]
  | p :: ps, k, e => if p.1 = k then (k, e) :: ps else p :: setEntry ps k e

/-- Outcome of the `while (attempts < 3)` retry loop of `graphqlRequest`
(lines 83–129): either an iteration reached the cache-and-resolve exit (its
`data` may still be `null`), or all three attempts were consumed.  `fetches`
counts `fetch` calls made. -/
inductive FetchOutcome (D : Type)
  | success (d : Option D) (fetches : Nat)
  | exhausted (fetches : Nat)
deriving Repr, DecidableEq

/-- The retry loop of `graphqlRequest`: `resp n` is the response to the
`n`-th `fetch`.  A rate-limited response backs off and retries; a non-ok
response waits and retries; otherwise the `data` field (or `null` when
missing) is the result. -/
def fetchLoop {D : Type} (resp : Nat → GqlResponse D) :
    Nat → Nat → FetchOutcome D
  | 0, used => .exhausted used
  | remaining + 1, used =>
    let r := resp used
    if rateLimited r then fetchLoop resp remaining (used + 1)
    else if !r.ok then fetchLoop resp remaining (used + 1)
    else .success r.data (used + 1)

/-- Result of one modelled `graphqlRequest` call: the resolved value, the
request cache afterwards, and how many `fetch` calls were made. -/
structure GqlResult (V D : Type) where
  data : Option D
  cache : List (CacheKey V × CacheEntry D)
  fetches : Nat

/-- The `if (cached && !isExpired(cached))` test of lines 65–68: the cache
entry for a key when present and unexpired. -/
def lookupFresh {V D : Type} [DecidableEq V]
    (cache : List (CacheKey V × CacheEntry D)) (now : Int) (key : CacheKey V) :
    Option (CacheEntry D) :=
  match lookupEntry cache key with
  | some e => if isExpired now e then none else some e
  | none => none

/-- `graphqlRequest` (lines 61–148) for sequential (non-overlapping) calls,
so the in-flight `pending` map is empty at every call boundary.  A fresh
cache entry short-circuits with no fetch; otherwise the retry loop runs, a
success (even with `null` data) is cached with the short TTL and resolved,
and exhaustion resolves `null` without caching.  The entry timestamp is the
call's `now`. -/
def graphqlRequest {V D : Type} [DecidableEq V]
    (cache : List (CacheKey V × CacheEntry D)) (now : Int)
    (query : String) (vars : V) (resp : Nat → GqlResponse D) :
    GqlResult V D :=
  match lookupFresh cache now (getCacheKey query vars) with
  | some e => ⟨e.data, cache, 0⟩
  | none =>
    match fetchLoop resp 3 0 with
    | .success d used =>
      ⟨d, setEntry cache (getCacheKey query vars) ⟨d, now, CACHE_TTL⟩, used⟩
    | .exhausted used => ⟨none, cache, used⟩

theorem lookupEntry_setEntry {V D : Type} [DecidableEq V]
    (cache : List (CacheKey V × CacheEntry D)) (k : CacheKey V)
    (e : CacheEntry D) : lookupEntry (setEntry cache k e) k = some e := by
  induction cache with
  | nil => simp [setEntry, lookupEntry]
  | cons p ps ih =>
    by_cases hp : p.1 = k
    · simp [setEntry, lookupEntry, hp]
    · simp [setEntry, lookupEntry, hp, ih]

/-! ### C3, C9, C10: retry, cache-hit and null-data caching -/

/-- C3.  If every fetch of a query returns a response whose GraphQL errors
array contains an entry with extensions code `rate-limit-exceeded`, then a
fresh (uncached) `graphqlRequest` resolves to `null` after exactly 3 fetch
attempts, without throwing (the model is total) and without touching the
cache. -/
theorem C3_rate_limit_three_attempts {V D : Type} [DecidableEq V]
    (cache : List (CacheKey V × CacheEntry D)) (now : Int)
    (q : String) (vars : V) (resp : Nat → GqlResponse D)
    (hmiss : lookupEntry cache (getCacheKey q vars) = none)
    (h0 : rateLimited (resp 0) = true)
    (h1 : rateLimited (resp 1) = true)
    (h2 : rateLimited (resp 2) = true) :
    graphqlRequest cache now q vars resp = ⟨none, cache, 3⟩ := by
  unfold graphqlRequest
  simp only [lookupFresh, hmiss]
  have : fetchLoop resp 3 0 = .exhausted 3 := by
    unfold fetchLoop
    simp only [h0, if_pos]
    unfold fetchLoop
    simp only [h1, if_pos]
    unfold fetchLoop
    simp only [h2, if_pos]
    rfl
  rw [this]

/-- Witness for `C3_rate_limit_three_attempts` on a concrete always-rate-limited
endpoint. -/
theorem C3_rate_limit_three_attempts_witness :
    lookupEntry ([] : List (CacheKey Unit × CacheEntry Nat))
        (getCacheKey "query" ()) = none ∧
    rateLimited (⟨true, [some "rate-limit-exceeded"], none⟩ : GqlResponse Nat)
        = true ∧
    graphqlRequest ([] : List (CacheKey Unit × CacheEntry Nat)) 0 "query" ()
        (fun _ => ⟨true, [some "rate-limit-exceeded"], none⟩)
      = ⟨none, [], 3⟩ :=
  ⟨by decide, by decide,
    C3_rate_limit_three_attempts [] 0 "query" () _ (by decide) (by decide)
      (by decide) (by decide)⟩

/-- C9 counterexample.  Two calls with the same query and variables, the
second while the first call's successful result is cached and unexpired:
when the first call's first attempt is rate-limited and its second attempt
succeeds, the two calls perform 2 underlying fetches, not exactly 1 (the
second call still performs 0). -/
theorem C9_counterexample :
    (let resp : Nat → GqlResponse Nat := fun n =>
      if n = 0 then ⟨true, [some "rate-limit-exceeded"], none⟩
      else ⟨true, [], some 7⟩
    let r1 := graphqlRequest ([] : List (CacheKey Unit × CacheEntry Nat))
      0 "q" () resp
    let r2 := graphqlRequest r1.cache 1000 "q" () resp
    r1.data = some 7 ∧ r2.data = some 7 ∧ r2.fetches = 0 ∧
      r1.fetches + r2.fetches ≠ 1) := by
  decide

/-- C9 (amended).  For two sequential `graphqlRequest` calls with the same
variables and query text equal up to whitespace normalisation, where the
first call misses the cache and its very first fetch succeeds (not
rate-limited, HTTP ok), and the second call happens within the cache TTL:
the first call performs exactly one fetch and caches its data, and the second
call performs no fetch and returns the cached data — exactly one underlying
network fetch across both calls.  (When the first call needs retries, the
fetch total across both calls is its retry count instead, as
`C9_counterexample` shows.) -/
theorem C9_cache_hit_single_fetch {V D : Type} [DecidableEq V]
    (cache : List (CacheKey V × CacheEntry D)) (now1 now2 : Int)
    (q1 q2 : String) (vars : V) (resp1 resp2 : Nat → GqlResponse D)
    (hnorm : getCacheKey q1 vars = getCacheKey q2 vars)
    (hmiss : lookupEntry cache (getCacheKey q1 vars) = none)
    (hrl : rateLimited (resp1 0) = false)
    (hok : (resp1 0).ok = true)
    (httl : now2 - now1 ≤ CACHE_TTL) :
    graphqlRequest cache now1 q1 vars resp1
      = ⟨(resp1 0).data,
          setEntry cache (getCacheKey q1 vars)
            ⟨(resp1 0).data, now1, CACHE_TTL⟩, 1⟩ ∧
    graphqlRequest
        (setEntry cache (getCacheKey q1 vars) ⟨(resp1 0).data, now1, CACHE_TTL⟩)
        now2 q2 vars resp2
      = ⟨(resp1 0).data,
          setEntry cache (getCacheKey q1 vars)
            ⟨(resp1 0).data, now1, CACHE_TTL⟩, 0⟩ := by
  have hfetch : fetchLoop resp1 3 0 = .success (resp1 0).data 1 := by
    unfold fetchLoop
    simp [hrl, hok]
  have hexp : isExpired now2
      (⟨(resp1 0).data, now1, CACHE_TTL⟩ : CacheEntry D) = false := by
    unfold isExpired
    simp only [decide_eq_false_iff_not, not_lt]
    exact httl
  constructor
  · unfold graphqlRequest
    simp only [lookupFresh, hmiss, hfetch]
  · unfold graphqlRequest
    rw [show lookupFresh
        (setEntry cache (getCacheKey q1 vars)
          ⟨(resp1 0).data, now1, CACHE_TTL⟩)
        now2 (getCacheKey q2 vars)
      = some ⟨(resp1 0).data, now1, CACHE_TTL⟩ by
        rw [← hnorm]
        unfold lookupFresh
        rw [lookupEntry_setEntry]
        simp [hexp]]

/-- Witness for `C9_cache_hit_single_fetch` with a concrete query pair that
differs only in whitespace. -/
theorem C9_cache_hit_single_fetch_witness :
    (getCacheKey "  query   Q " () = getCacheKey "query Q" ()) ∧
    lookupEntry ([] : List (CacheKey Unit × CacheEntry Nat))
        (getCacheKey "  query   Q " ()) = none ∧
    graphqlRequest ([] : List (CacheKey Unit × CacheEntry Nat)) 0
        "  query   Q " () (fun _ => ⟨true, [], some 5⟩)
      = ⟨some 5,
          setEntry [] (getCacheKey "  query   Q " ()) ⟨some 5, 0, CACHE_TTL⟩,
          1⟩ ∧
    graphqlRequest
        (setEntry [] (getCacheKey "  query   Q " ()) ⟨some 5, 0, CACHE_TTL⟩)
        60000 "query Q" () (fun _ => ⟨true, [], some 9⟩)
      = ⟨some 5,
          setEntry [] (getCacheKey "  query   Q " ()) ⟨some 5, 0, CACHE_TTL⟩,
          0⟩ := by
  have h := C9_cache_hit_single_fetch
    ([] : List (CacheKey Unit × CacheEntry Nat)) 0 60000 "  query   Q "
    "query Q" () (fun _ => ⟨true, [], some 5⟩) (fun _ => ⟨true, [], some 9⟩)
    (by decide) (by decide) (by decide) (by decide) (by decide)
  exact ⟨by decide, by decide, h.1, h.2⟩

/-- C10.  When a fresh `graphqlRequest` gets an HTTP-ok response with no
rate-limit error and no `data` field, it caches `null` under the request key
with the short `CACHE_TTL` and resolves `null` after one fetch; any later
call with the same key within the TTL returns that cached `null` with no
fetch — indistinguishable at the call site from retry exhaustion. -/
theorem C10_null_data_cached {V D : Type} [DecidableEq V]
    (cache : List (CacheKey V × CacheEntry D)) (now1 now2 : Int)
    (q : String) (vars : V) (resp1 resp2 : Nat → GqlResponse D)
    (hmiss : lookupEntry cache (getCacheKey q vars) = none)
    (hok : (resp1 0).ok = true)
    (hrl : rateLimited (resp1 0) = false)
    (hnodata : (resp1 0).data = none)
    (httl : now2 - now1 ≤ CACHE_TTL) :
    graphqlRequest cache now1 q vars resp1
      = ⟨none,
          setEntry cache (getCacheKey q vars) ⟨none, now1, CACHE_TTL⟩, 1⟩ ∧
    lookupEntry (setEntry cache (getCacheKey q vars) ⟨none, now1, CACHE_TTL⟩)
        (getCacheKey q vars) = some ⟨none, now1, CACHE_TTL⟩ ∧
    graphqlRequest
        (setEntry cache (getCacheKey q vars) ⟨none, now1, CACHE_TTL⟩)
        now2 q vars resp2
      = ⟨none,
          setEntry cache (getCacheKey q vars) ⟨none, now1, CACHE_TTL⟩, 0⟩ := by
  have h := C9_cache_hit_single_fetch cache now1 now2 q q vars resp1 resp2
    rfl hmiss hrl hok httl
  rw [hnodata] at h
  exact ⟨h.1, lookupEntry_setEntry .., h.2⟩

/-- Witness for `C10_null_data_cached` on a concrete data-less response. -/
theorem C10_null_data_cached_witness :
    lookupEntry ([] : List (CacheKey Unit × CacheEntry Nat))
        (getCacheKey "q" ()) = none ∧
    graphqlRequest ([] : List (CacheKey Unit × CacheEntry Nat)) 0 "q" ()
        (fun _ => ⟨true, [], none⟩)
      = ⟨none, setEntry [] (getCacheKey "q" ()) ⟨none, 0, CACHE_TTL⟩, 1⟩ ∧
    graphqlRequest (setEntry [] (getCacheKey "q" ()) ⟨none, 0, CACHE_TTL⟩)
        100 "q" () (fun _ => ⟨true, [], some 3⟩)
      = ⟨none, setEntry [] (getCacheKey "q" ()) ⟨none, 0, CACHE_TTL⟩, 0⟩ := by
  have h := C10_null_data_cached ([] : List (CacheKey Unit × CacheEntry Nat))
    0 100 "q" () (fun _ => ⟨true, [], none⟩) (fun _ => ⟨true, [], some 3⟩)
    (by decide) (by decide) (by decide) (by decide) (by decide)
  exact ⟨by decide, h.1, h.2.2⟩

/-! ### Domain model: remote rows, token entries, URL helpers -/

/-- Does `l` start with `pat`? (JavaScript `startsWith`.) -/
def leadsWith : List Char → List Char → Bool
  | [], _ => true
  | _ :: _, [] => false
  | p :: ps, c :: cs => p = c && leadsWith ps cs

/-- Does `l` contain `pat` as a contiguous substring? (JavaScript
`includes`.) -/
def hasSub (pat : List Char) : List Char → Bool
  | [] => leadsWith pat []
  | c :: cs => leadsWith pat (c :: cs) || hasSub pat cs

/-- Does `l` end with `pat`? (JavaScript `endsWith`.) -/
def endsWithList (pat l : List Char) : Bool :=
  leadsWith pat.reverse l.reverse

/-- `isEnsName` (`src/lib/ab.ts` lines 155–157). -/
def isEnsName (name : String) : Bool :=
  endsWithList ".eth".data name.data || hasSub ".eth.".data name.data

def isHexDigit (c : Char) : Bool :=
  ('0' ≤ c && c ≤ '9') || ('a' ≤ c && c ≤ 'f') || ('A' ≤ c && c ≤ 'F')

/-- `isEthAddress` (lines 159–161): `/^0x[a-fA-F0-9]{40}$/`. -/
def isEthAddress (address : String) : Bool :=
  match address.data with
  | '0' :: 'x' :: rest => rest.length = 40 && rest.all isHexDigit
  | _ => false

/-- JavaScript `toLowerCase` (ASCII; only ASCII occurs in these fields). -/
def toLowerStr (s : String) : String :=
  ⟨s.data.map Char.toLower⟩

/-- `wrapIlike` (line 150–152). -/
def wrapIlike (term : String) : String :=
  "%" ++ term ++ "%"

/-- `ZERO_ENGINE_ADDRESS` (line 7): the placeholder/invalid engine contract
address seen in bad remote rows. -/
def ZERO_ENGINE_ADDRESS : String :=
  "0x00000000e75eadc620f4fcefab32f5173749c3a4"

/-- UTF-8 bytes of one character. -/
def charUtf8Bytes (c : Char) : List Nat :=
  let n := c.toNat
  if n < 0x80 then [n]
  else if n < 0x800 then [0xC0 + n / 0x40, 0x80 + n % 0x40]
  else if n < 0x10000 then
    [0xE0 + n / 0x1000, 0x80 + n / 0x40 % 0x40, 0x80 + n % 0x40]
  else
    [0xF0 + n / 0x40000, 0x80 + n / 0x1000 % 0x40, 0x80 + n / 0x40 % 0x40,
      0x80 + n % 0x40]

def hexDigitUpper (n : Nat) : Char :=
  if n < 10 then Char.ofNat ('0'.toNat + n) else Char.ofNat ('A'.toNat + n - 10)

def pctEncodeByte (b : Nat) : List Char :=
  ['%', hexDigitUpper (b / 16), hexDigitUpper (b % 16)]

/-- The characters `encodeURIComponent` leaves unescaped. -/
def isUnreservedUri (c : Char) : Bool :=
  ('A' ≤ c && c ≤ 'Z') || ('a' ≤ c && c ≤ 'z') || ('0' ≤ c && c ≤ '9') ||
  c = '-' || c = '_' || c = '.' || c = '!' || c = '~' || c = '*' ||
  c = '\'' || c = '(' || c = ')'

/-- JavaScript `encodeURIComponent`. -/
def encodeURIComponent (s : String) : String :=
  ⟨(s.data.map fun c =>
      if isUnreservedUri c then [c]
      else ((charUtf8Bytes c).map pctEncodeByte).flatten).flatten⟩

/-- `composeGeneratorUrl` (lines 1153–1157). -/
def composeGeneratorUrl (tokenId : String) (contractAddress : Option String) :
    String :=
  match contractAddress with
  | some ca =>
    "https://generator.artblocks.io/" ++ encodeURIComponent ca ++ "/" ++
      encodeURIComponent tokenId
  | none => "https://generator.artblocks.io/" ++ encodeURIComponent tokenId

/-- `composeMediaUrl` (lines 1159–1163). -/
def composeMediaUrl (tokenId : String) (contractAddress : Option String) :
    String :=
  match contractAddress with
  | some ca =>
    "https://media-proxy.artblocks.io/" ++ encodeURIComponent ca ++ "/" ++
      encodeURIComponent tokenId ++ ".png"
  | none =>
    "https://media.artblocks.io/" ++ encodeURIComponent tokenId ++ ".png"

/-- One remote `tokens_metadata` row as the consuming code reads it.  Every
field is guarded by a `typeof` check in the source, so `none` models an
absent field or one of the wrong type; an absent `project` object is modelled
by all its fields being `none`. -/
structure Row where
  id : Option String
  token_id : Option String
  contract_address : Option String
  live_view_url : Option String
  preview_asset_url : Option String
  owner_address : Option String
  invocation : Option Int
  projectName : Option String
  projectArtistName : Option String
  projectId : Option String
  projectWebsite : Option String
  projectArtistAddress : Option String
  projectSlug : Option String
deriving DecidableEq, Repr

/-- A `Row` with every field absent, for building concrete rows tersely. -/
def emptyRow : Row :=
  ⟨none, none, none, none, none, none, none, none, none, none, none, none,
    none⟩

/-- `TokenEntry` (`src/lib/ab.ts` lines 828–842). -/
structure TokenEntry where
  tokenId : String
  contractAddress : Option String
  generatorUrl : String
  liveViewUrl : Option String
  projectName : Option String
  artistName : Option String
  imageUrl : Option String
  owner : Option String
  invocation : Option Int
  projectId : Option String
  projectWebsite : Option String
  artistAddress : Option String
  projectSlug : Option String
deriving DecidableEq, Repr

/-- Row-to-entry conversion of `searchTokensWithLiveView` and
`searchTokensWithLiveViewProgressive` (lines 944–975 and 1579–1610): a row
is skipped unless `token_id` is a string; `live_view_url` is used as the
generator URL only when it is a non-empty string. -/
def rowToEntry (row : Row) : Option TokenEntry :=
  match row.token_id with
  | none => none
  | some tid =>
    let generatorUrl :=
      match row.live_view_url with
      | some u => if u = "" then composeGeneratorUrl tid row.contract_address
                  else u
      | none => composeGeneratorUrl tid row.contract_address
    some
      { tokenId := tid
        contractAddress := row.contract_address
        generatorUrl := generatorUrl
        liveViewUrl := row.live_view_url
        imageUrl := some
          (match row.preview_asset_url with
            | some p => p
            | none => composeMediaUrl tid row.contract_address)
        owner := row.owner_address
        invocation := row.invocation
        projectName := row.projectName
        artistName := row.projectArtistName
        projectId := row.projectId
        projectWebsite := row.projectWebsite
        artistAddress := row.projectArtistAddress
        projectSlug := row.projectSlug }

/-- Is this (string) contract address the bad placeholder?  The
`typeof ca === 'string' && ca.toLowerCase() === ZERO_ENGINE_ADDRESS` test. -/
def isBadContract (ca : Option String) : Bool :=
  match ca with
  | some c => toLowerStr c = ZERO_ENGINE_ADDRESS
  | none => false

/-- Entry construction of `tokensByIdWithLiveView` (lines 1045–1067 and
1114–1136): a placeholder contract address is kept on the entry but excluded
from the generator URL. -/
def entryGuarded (row : Row) (tid : String) : TokenEntry :=
  let bad := isBadContract row.contract_address
  let generatorUrl :=
    match row.live_view_url with
    | some u =>
      if u ≠ "" && !bad then u
      else composeGeneratorUrl tid
        (if bad then none else row.contract_address)
    | none =>
      composeGeneratorUrl tid (if bad then none else row.contract_address)
  { tokenId := tid
    contractAddress := row.contract_address
    generatorUrl := generatorUrl
    liveViewUrl := row.live_view_url
    imageUrl := some
      (match row.preview_asset_url with
        | some p => p
        | none => composeMediaUrl tid row.contract_address)
    owner := row.owner_address
    invocation := row.invocation
    projectName := row.projectName
    artistName := row.projectArtistName
    projectId := row.projectId
    projectWebsite := row.projectWebsite
    artistAddress := row.projectArtistAddress
    projectSlug := row.projectSlug }

/-! ### Search-function models

Each distinct GraphQL query shape in the source is represented by one
`QueryDesc` constructor carrying the filter value(s) it was issued with, so
theorems can talk about which queries a resolution run sends. -/

inductive QueryDesc
  | tokensByUniqueIds (ids : List String)      -- TokensByUniqueIds
  | tokensByPlainIds (ids : List String)       -- TokensByIds
  | artistExact (name : String)                -- SearchByArtistExact
  | searchArtist (value : String)              -- SearchByArtist (_ilike)
  | searchProject (value : String)             -- SearchByProject (_ilike)
  | searchCollectorEq (value : String)         -- SearchByCollectorEq
  | searchCollectorIlike (value : String)      -- SearchByCollectorLike
  | tokensByOwnersIn (owners : List String)    -- TokensByOwners (_in)
  | tokensByOwnerEq (value : String)           -- TokensByOwnerFallback _eq
  | tokensByOwnerIlike (value : String)        -- TokensByOwnerFallback _ilike
  | liveArtistIlike (value : String)           -- TokensByArtist
  | liveProjectEq (value : String)             -- TokensByProjectExact
  | liveProjectIlike (value : String)          -- TokensByProjectFuzzy
  | liveCollectorIlike (value : String)        -- TokensByCollector
  | projectInvocations (name : String)         -- ProjectInvocations
  | usersByAddr (addr : String)                -- UsersByAddr
  | usersByName (value : String)               -- UsersByName
deriving DecidableEq, Repr

/-- Does this query filter the `tokens_metadata` token index (as opposed to
the `users` directory or `projects_metadata`)? -/
def isTokensQuery : QueryDesc → Bool
  | .projectInvocations _ => false
  | .usersByAddr _ => false
  | .usersByName _ => false
  | _ => true

/-- The `'artist' | 'project' | 'collector'` mode parameter of the search
functions. -/
inductive SearchMode
  | artist
  | project
  | collector
deriving DecidableEq, Repr

/-- Page loop shared by `searchTokensWithLiveView` (lines 854–980, page size
fixed at 100) and `searchTokensWithLiveViewProgressive` (lines 1458–1625,
first page possibly smaller): each iteration first checks
`results.length < max`, then consumes one remote response (an exhausted
response list behaves like a `null` response and breaks, just as a finite
remote data set would), logs the query, converts the rows, and continues only
on a full page.  Returns the per-page entry batches and the query log. -/
def livePages (desc : QueryDesc) (max : Nat) :
    List (Option (List Row)) → Nat → Nat →
      List (List TokenEntry) × List QueryDesc
  | [], _, _ => ([], [])
  | resp :: rest, pageSize, accLen =>
    if accLen < max then
      match resp with
      | none => ([], [desc])
      | some rows =>
        if rows.isEmpty then ([], [desc])
        else
          let batch := rows.filterMap rowToEntry
          if rows.length < pageSize then ([batch], [desc])
          else
            let (bs, ls) := livePages desc max rest 100 (accLen + batch.length)
            (batch :: bs, desc :: ls)
    else ([], [])

/-- The `useExactMatch` test of line 1451. -/
def useExactMatch (mode : SearchMode) (term : String) : Bool :=
  mode = .project &&
    (term = "Chromie Squiggle" || !hasSub "%".data term.data)

/-- Result of `searchTokensWithLiveViewProgressive`: the batches handed to
`onBatch`, the returned entry list, and the queries issued. -/
structure ProgResult where
  batches : List (List TokenEntry)
  results : List TokenEntry
  logs : List QueryDesc
deriving Repr

/-- The query and filter value `searchTokensWithLiveViewProgressive` uses:
the exact project query with the raw term under `useExactMatch`, the fuzzy
`_ilike` query on `'%term%'` otherwise. -/
def progDesc (mode : SearchMode) (term : String) : QueryDesc :=
  match mode with
  | .artist => QueryDesc.liveArtistIlike (wrapIlike term)
  | .project =>
    if useExactMatch .project term then QueryDesc.liveProjectEq term
    else QueryDesc.liveProjectIlike (wrapIlike term)
  | .collector => QueryDesc.liveCollectorIlike (wrapIlike term)

/-- `searchTokensWithLiveViewProgressive` (lines 1443–1628). -/
def searchTokensWithLiveViewProgressive (mode : SearchMode) (term : String)
    (max initialBatchSize : Nat) (pages : List (Option (List Row))) :
    ProgResult :=
  match livePages (progDesc mode term) max pages (min initialBatchSize 100) 0
    with
  | (bs, ls) => ⟨bs, bs.flatten.take max, ls⟩

/-- The (always fuzzy) query of `searchTokensWithLiveView`. -/
def liveFuzzyDesc (mode : SearchMode) (term : String) : QueryDesc :=
  match mode with
  | .artist => QueryDesc.liveArtistIlike (wrapIlike term)
  | .project => QueryDesc.liveProjectIlike (wrapIlike term)
  | .collector => QueryDesc.liveCollectorIlike (wrapIlike term)

/-- `searchTokensWithLiveView` (lines 844–983): always fuzzy, page size
100. -/
def searchTokensWithLiveView (mode : SearchMode) (term : String) (max : Nat)
    (pages : List (Option (List Row))) : List TokenEntry × List QueryDesc :=
  match livePages (liveFuzzyDesc mode term) max pages 100 0 with
  | (bs, ls) => (bs.flatten.take max, ls)

/-- The id-level row shape returned by the identifier search helpers
(`{ tokenId, contractAddress?, id? }`). -/
structure IdRow where
  tokenId : String
  contractAddress : Option String
  id : Option String
deriving DecidableEq, Repr

/-- Row conversion of the id-level searches (lines 740–750 etc.): keep a row
only when `token_id` is a string. -/
def rowToIdRow (row : Row) : Option IdRow :=
  match row.token_id with
  | some tid => some ⟨tid, row.contract_address, row.id⟩
  | none => none

/-- Page loop of `searchTokensByArtistExact` (lines 760–801) and of the
token-index part of `searchTokensByCollector` (lines 1696–1745): page size
100, no inner retry. -/
def idPages (desc : QueryDesc) (max : Nat) :
    List (Option (List Row)) → Nat → List IdRow × List QueryDesc
  | [], _ => ([], [])
  | resp :: rest, accLen =>
    if accLen < max then
      match resp with
      | none => ([], [desc])
      | some rows =>
        if rows.isEmpty then ([], [desc])
        else
          let batch := rows.filterMap rowToIdRow
          if rows.length < 100 then (batch, [desc])
          else
            let (bs, ls) := idPages desc max rest (accLen + batch.length)
            (batch ++ bs, desc :: ls)
    else ([], [])

/-- `searchTokensByArtistExact` (lines 760–801). -/
def searchTokensByArtistExact (artistName : String) (max : Nat)
    (pages : List (Option (List Row))) : List IdRow × List QueryDesc :=
  let (rows, logs) := idPages (.artistExact artistName) max pages 0
  (rows.take max, logs)

/-- The inner `while (attempts < 3)` retry of `searchTokensByGraphQLAll`
(lines 726–736): re-issue the request until a non-null response, at most 3
times.  The environment entries distinguish a null response (`none`, retried)
from a response whose `tokens_metadata` is missing or not an array
(`some none`, which stops the retry but breaks the page loop).  Returns the
final response, the remaining environment, and the number of requests
made. -/
def gqlAllRetry :
    Nat → List (Option (Option (List Row))) →
      Option (Option (List Row)) × List (Option (Option (List Row))) × Nat
  | 0, env => (none, env, 0)
  | n + 1, [] => (none, [], n + 1)
  | n + 1, e :: rest =>
    match e with
    | some d => (some d, rest, 1)
    | none =>
      let (d, env2, c) := gqlAllRetry n rest
      (d, env2, c + 1)

/-- Page loop of `searchTokensByGraphQLAll` (lines 661–754); the outer fuel
is an upper bound on the page count (each further page consumes at least one
environment entry, so `env.length + 1` always suffices). -/
def gqlAllPages (desc : QueryDesc) (max : Nat) :
    Nat → List (Option (Option (List Row))) → Nat →
      List IdRow × List QueryDesc
  | 0, _, _ => ([], [])
  | fuel + 1, env, accLen =>
    if accLen < max then
      let (d, env2, c) := gqlAllRetry 3 env
      let logs0 := List.replicate c desc
      match d with
      | none => ([], logs0)
      | some none => ([], logs0)
      | some (some rows) =>
        if rows.isEmpty then ([], logs0)
        else
          let batch := rows.filterMap rowToIdRow
          if rows.length < 100 then (batch, logs0)
          else
            match gqlAllPages desc max fuel env2 (accLen + batch.length) with
            | (bs, ls) => (batch ++ bs, logs0 ++ ls)
    else ([], [])

/-- `searchTokensByGraphQLAll` (lines 650–757). -/
def searchTokensByGraphQLAll (mode : SearchMode) (term : String) (max : Nat)
    (env : List (Option (Option (List Row)))) : List IdRow × List QueryDesc :=
  let isAddr := mode = .collector && isEthAddress term
  let value := if isAddr then toLowerStr term else wrapIlike term
  let desc :=
    match mode with
    | .artist => QueryDesc.searchArtist value
    | .project => QueryDesc.searchProject value
    | .collector =>
      if isAddr then QueryDesc.searchCollectorEq value
      else QueryDesc.searchCollectorIlike value
  let (rows, logs) := gqlAllPages desc max (env.length + 1) env 0
  (rows.take max, logs)

/-- Environment of `fetchUserAddressesByTerm`: the ENS resolution result and
the `users` query response (`none` models a null response or a missing/non-
array `users` field; each row is its `public_address` field when it is a
string). -/
structure UserEnv where
  ensAddress : Option String
  usersResp : Option (List (Option String))
deriving Repr

/-- `fetchUserAddressesByTerm` (lines 1631–1688). -/
def fetchUserAddressesByTerm (term : String) (env : UserEnv) :
    List String × List QueryDesc :=
  if isEnsName term then
    match env.ensAddress with
    | some resolved =>
      let desc := QueryDesc.usersByAddr resolved
      match env.usersResp with
      | none => ([resolved], [desc])
      | some list =>
        let addrs := list.filterMap fun a => a.map toLowerStr
        (if addrs.isEmpty then [resolved] else addrs, [desc])
    | none => ([], [])
  else if isEthAddress term then
    let desc := QueryDesc.usersByAddr (toLowerStr term)
    match env.usersResp with
    | none => ([], [desc])
    | some list => (list.filterMap fun a => a.map toLowerStr, [desc])
  else
    let desc := QueryDesc.usersByName (wrapIlike term)
    match env.usersResp with
    | none => ([], [desc])
    | some list => (list.filterMap fun a => a.map toLowerStr, [desc])

/-- `searchTokensByCollector` (lines 1690–1747): resolve the term to owner
addresses first; when that yields at least one address the token index is
filtered with `owner_address: { _in: addresses }`, otherwise it falls back to
an exact (for a hex address) or fuzzy (otherwise) filter on the raw term. -/
def searchTokensByCollector (term : String) (max : Nat) (uenv : UserEnv)
    (pages : List (Option (List Row))) : List IdRow × List QueryDesc :=
  let (addresses, ulogs) := fetchUserAddressesByTerm term uenv
  let desc :=
    if !addresses.isEmpty then QueryDesc.tokensByOwnersIn addresses
    else if isEthAddress term then QueryDesc.tokensByOwnerEq (toLowerStr term)
    else QueryDesc.tokensByOwnerIlike (wrapIlike term)
  let (rows, logs) := idPages desc max pages 0
  (rows.take max, ulogs ++ logs)

/-! ### `tokensByIdWithLiveView` and the two selection resolvers -/

/-- `id.includes('-') && id.startsWith('0x')` (line 1001). -/
def isUniqueIdFormat (s : String) : Bool :=
  hasSub "-".data s.data && leadsWith "0x".data s.data

/-- Fuel-structural chunking into blocks of 50 (line 988); `l.length` fuel
always suffices. -/
def chunksAux : Nat → List String → List (List String)
  | 0, _ => []
  | _ + 1, [] => []
  | fuel + 1, l => l.take 50 :: chunksAux fuel (l.drop 50)

def chunks50 (l : List String) : List (List String) :=
  chunksAux l.length l

/-- The dedup key of the plain-id branch of `tokensByIdWithLiveView`
(lines 1110–1112): the remote row id when present, else
`contractAddress-tokenId` when both are present, else the token id. -/
def effectiveId (row : Row) : Option String :=
  match row.id with
  | some u => some u
  | none =>
    match row.contract_address, row.token_id with
    | some c, some t => some (c ++ "-" ++ t)
    | _, _ => row.token_id

/-- One row of the unique-id branch (lines 1034–1069): key = the remote row
id, rows without string `token_id` and `id` are skipped. -/
def uniqueRowStep (st : List String × List TokenEntry) (row : Row) :
    List String × List TokenEntry :=
  match row.token_id, row.id with
  | some tid, some uid =>
    if uid ∈ st.1 then st
    else (st.1 ++ [uid], st.2 ++ [entryGuarded row tid])
  | _, _ => st

def uniqueRowsFold (rows : List Row) (seen : List String)
    (entries : List TokenEntry) : List String × List TokenEntry :=
  rows.foldl uniqueRowStep (seen, entries)

/-- One row of the plain-id branch (lines 1098–1139). -/
def plainRowStep (st : List String × List TokenEntry) (row : Row) :
    List String × List TokenEntry :=
  match row.token_id, effectiveId row with
  | some tid, some eid =>
    if eid ∈ st.1 then st
    else (st.1 ++ [eid], st.2 ++ [entryGuarded row tid])
  | _, _ => st

def plainRowsFold (rows : List Row) (seen : List String)
    (entries : List TokenEntry) : List String × List TokenEntry :=
  rows.foldl plainRowStep (seen, entries)

/-- One query of the chunk loop of `tokensByIdWithLiveView`: issue the query
(logging it), and when the response is an array fold its rows into the seen
set and entry list. -/
def chunkBranch
    (fold : List Row → List String → List TokenEntry →
      List String × List TokenEntry)
    (rowsOpt : Option (List Row)) (desc : QueryDesc)
    (st : List String × List TokenEntry × List QueryDesc) :
    List String × List TokenEntry × List QueryDesc :=
  match rowsOpt with
  | some rows =>
    match fold rows st.1 st.2.1 with
    | (s, e) => (s, e, st.2.2 ++ [desc])
  | none => (st.1, st.2.1, st.2.2 ++ [desc])

/-- Chunk loop of `tokensByIdWithLiveView` (lines 992–1141): the environment
supplies, per chunk, the responses of the unique-id and the plain-id query
(whichever of the two is issued). -/
def tokensByIdChunks (max : Nat) :
    List (List String) → List (Option (List Row) × Option (List Row)) →
      List String → List TokenEntry → List QueryDesc →
      List TokenEntry × List QueryDesc
  | [], _, _, entries, logs => (entries, logs)
  | chunk :: restChunks, envs, seen, entries, logs =>
    if entries.length < max then
      let env := envs.headD (none, none)
      let uniqueIds := chunk.filter isUniqueIdFormat
      let plainIds := chunk.filter fun s => !isUniqueIdFormat s
      let st1 :=
        if uniqueIds.isEmpty then (seen, entries, logs)
        else chunkBranch uniqueRowsFold env.1 (.tokensByUniqueIds uniqueIds)
          (seen, entries, logs)
      let st2 :=
        if plainIds.isEmpty then st1
        else chunkBranch plainRowsFold env.2 (.tokensByPlainIds plainIds) st1
      tokensByIdChunks max restChunks envs.tail st2.1 st2.2.1 st2.2.2
    else (entries, logs)

/-- `tokensByIdWithLiveView` (lines 985–1143). -/
def tokensByIdWithLiveView (tokenIds : List String) (max : Nat)
    (envs : List (Option (List Row) × Option (List Row))) :
    List TokenEntry × List QueryDesc :=
  if tokenIds.isEmpty then ([], [])
  else
    match tokensByIdChunks max (chunks50 tokenIds) envs [] [] [] with
    | (entries, logs) => (entries.take max, logs)

/-- JS `Set.add` on an insertion-ordered list. -/
def addUnique (l : List String) (s : String) : List String :=
  if s ∈ l then l else l ++ [s]

/-- The per-row dedup of `resolveSelectionTokenIds` (lines 1273–1301): the
remote row id goes into the unique-id set when present, otherwise the bare
token id goes into the token set. -/
def addRowsToSets (rows : List IdRow) (ids toks : List String) :
    List String × List String :=
  rows.foldl
    (fun st r =>
      match r.id with
      | some i => (addUnique st.1 i, st.2)
      | none => (st.1, addUnique st.2 r.tokenId))
    (ids, toks)

/-- The placeholder filter of lines 1271/1282/1293 on id-level rows. -/
def keepIdRow (r : IdRow) : Bool :=
  match r.contractAddress with
  | none => true
  | some ca => !(toLowerStr ca = ZERO_ENGINE_ADDRESS)

/-- Per-item remote environment of `resolveSelectionTokenIds`. -/
structure IdsItemEnv where
  exactPages : List (Option (List Row))
  fuzzyEnv : List (Option (Option (List Row)))
  user : UserEnv
  collPages : List (Option (List Row))
deriving Repr

/-- Item loop of `resolveSelectionTokenIds` (lines 1261–1304), including the
`break` once the two sets together reach `max`. -/
def resolveIdsLoop (max : Nat) :
    List (SelectionItem × IdsItemEnv) → List String → List String →
      List QueryDesc → List String × List String × List QueryDesc
  | [], ids, toks, logs => (ids, toks, logs)
  | (it, env) :: rest, ids, toks, logs =>
    let st :=
      match it.type with
      | .token => (ids, addUnique toks it.value, logs)
      | .artist =>
        let ex := searchTokensByArtistExact it.value (max - ids.length)
          env.exactPages
        let rl :=
          if ex.1.isEmpty then
            let fz := searchTokensByGraphQLAll .artist it.value
              (max - ids.length) env.fuzzyEnv
            (fz.1, ex.2 ++ fz.2)
          else (ex.1, ex.2)
        let filtered := rl.1.filter keepIdRow
        match addRowsToSets filtered ids toks with
        | (i2, t2) => (i2, t2, logs ++ rl.2)
      | .project =>
        let pr := searchTokensByGraphQLAll .project it.value
          (max - ids.length) env.fuzzyEnv
        let filtered := pr.1.filter keepIdRow
        match addRowsToSets filtered ids toks with
        | (i2, t2) => (i2, t2, logs ++ pr.2)
      | .collector =>
        let cr := searchTokensByCollector it.value (max - ids.length)
          env.user env.collPages
        let filtered := cr.1.filter keepIdRow
        match addRowsToSets filtered ids toks with
        | (i2, t2) => (i2, t2, logs ++ cr.2)
    if st.1.length + st.2.1.length ≥ max then st
    else resolveIdsLoop max rest st.1 st.2.1 st.2.2

/-- `resolveSelectionTokenIds` (lines 1257–1308): unique row ids first, then
plain token ids. -/
def resolveSelectionTokenIds (items : List (SelectionItem × IdsItemEnv))
    (max : Nat) : List String × List QueryDesc :=
  match resolveIdsLoop max items [] [] [] with
  | (ids, toks, logs) => (ids ++ toks, logs)

/-! ### `resolveSelectionToTokenEntries` with progress snapshots -/

/-- One `{loaded, total, percentage, entries}` progress snapshot
(lines 1369–1379); the JS float `percentage` is modelled as a rational. -/
structure ProgressSnapshot where
  loaded : Nat
  total : Int
  percentage : ℚ
  entries : List TokenEntry
deriving DecidableEq, Repr

/-- The `updateProgress` computation of lines 1369–1379, from the accumulated
entries map (an insertion-ordered association list keyed like the JS
`Map`). -/
def mkProgress (totalExpected : Int) (max : Nat)
    (m : List (String × TokenEntry)) : ProgressSnapshot :=
  let size := m.length
  let tot : Int := min totalExpected (max : Int)
  { loaded := size
    total := tot
    percentage :=
      if 0 < totalExpected then min ((size : ℚ) / (tot : ℚ) * 100) 100 else 0
    entries := m.map (·.2) }

/-- JS `Map.set`: replace in place when the key exists, append otherwise. -/
def mapSet (m : List (String × TokenEntry)) (k : String) (v : TokenEntry) :
    List (String × TokenEntry) :=
  match m with
  | [] => [(k, v)]
  | p :: ps => if p.1 = k then (k, v) :: ps else p :: mapSet ps k v

/-- The placeholder filter of lines 1396/1403/1410/1417/1424/1431 on
entries. -/
def keepEntry (e : TokenEntry) : Bool :=
  match e.contractAddress with
  | none => true
  | some ca => !(toLowerStr ca = ZERO_ENGINE_ADDRESS)

/-- Fold one entry batch into the map, keyed by `entry.tokenId`, dropping
placeholder-contract entries (the `onBatch` body of lines 1394–1400 and the
post-await folds of lines 1402–1406 etc.). -/
def applyBatch (m : List (String × TokenEntry)) (batch : List TokenEntry) :
    List (String × TokenEntry) :=
  batch.foldl (fun m e => if keepEntry e then mapSet m e.tokenId e else m) m

/-- Per-item remote environment of `resolveSelectionToTokenEntries`:
the project-invocations response (`none` for a null response, a missing or
empty `projects_metadata`, or a non-numeric `invocations`), the progressive
search pages, and the `tokensByIdWithLiveView` response for a token item. -/
structure ItemEnv where
  invocations : Option Int
  pages : List (Option (List Row))
  tokenResp : Option (List Row)
deriving Repr

/-- The `totalExpected` pre-pass of lines 1344–1366: one per token item, the
project's invocation count (fallback 1000), flat 5000 per artist, flat 1000
per collector. -/
def totalExpectedOf (items : List (SelectionItem × ItemEnv)) :
    Int × List QueryDesc :=
  items.foldl
    (fun st p =>
      match p.1.type with
      | .token => (st.1 + 1, st.2)
      | .project =>
        (st.1 + (p.2.invocations.getD 1000),
          st.2 ++ [.projectInvocations p.1.value])
      | .artist => (st.1 + 5000, st.2)
      | .collector => (st.1 + 1000, st.2))
    (0, [])

/-- The mode `resolveSelectionToTokenEntries` passes to the progressive
search for a non-token item. -/
def toSearchMode : SelKind → SearchMode
  | .artist => .artist
  | .project => .project
  | .collector => .collector
  | .token => .collector

/-- One artist/project/collector item of the entries loop (lines 1392–1435):
run the progressive search with `max - entriesMap.size`, fold each batch into
the map through the placeholder filter and emit a progress snapshot, then
fold the returned entries once more (without a snapshot). -/
def entriesSearchStep (mode : SearchMode) (value : String)
    (max initialBatchSize : Nat) (te : Int) (env : ItemEnv)
    (m : List (String × TokenEntry)) (snaps : List ProgressSnapshot) :
    List (String × TokenEntry) × List ProgressSnapshot × List QueryDesc :=
  let pr := searchTokensWithLiveViewProgressive mode value (max - m.length)
    initialBatchSize env.pages
  let folded :=
    pr.batches.foldl
      (fun (st : List (String × TokenEntry) × List ProgressSnapshot) batch =>
        let m2 := applyBatch st.1 batch
        (m2, st.2 ++ [mkProgress te max m2]))
      (m, snaps)
  (applyBatch folded.1 pr.results, folded.2, pr.logs)

/-- Item loop of `resolveSelectionToTokenEntries` (lines 1384–1437),
including the `break` once the map reaches `max`. -/
def entriesLoop (max initialBatchSize : Nat) (te : Int) :
    List (SelectionItem × ItemEnv) → List (String × TokenEntry) →
      List ProgressSnapshot → List QueryDesc →
      List (String × TokenEntry) × List ProgressSnapshot × List QueryDesc
  | [], m, snaps, logs => (m, snaps, logs)
  | (it, env) :: rest, m, snaps, logs =>
    let st :=
      match it.type with
      | .token =>
        let tk := tokensByIdWithLiveView [it.value] 1
          [(env.tokenResp, env.tokenResp)]
        match tk.1.head? with
        | some e =>
          let m2 := mapSet m it.value e
          (m2, snaps ++ [mkProgress te max m2], logs ++ tk.2)
        | none => (m, snaps, logs ++ tk.2)
      | k =>
        match entriesSearchStep (toSearchMode k) it.value max
            initialBatchSize te env m snaps with
        | (m2, snaps2, slogs) => (m2, snaps2, logs ++ slogs)
    if st.1.length ≥ max then st
    else entriesLoop max initialBatchSize te rest st.1 st.2.1 st.2.2

/-- Result of one modelled `resolveSelectionToTokenEntries` run: the final
entries map (association list), the returned entry list, every progress
snapshot handed to `onProgress` in order, and the queries issued. -/
structure ResolveEntriesResult where
  assoc : List (String × TokenEntry)
  entries : List TokenEntry
  snapshots : List ProgressSnapshot
  logs : List QueryDesc
deriving Repr

/-- `resolveSelectionToTokenEntries` (lines 1335–1440). -/
def resolveSelectionToTokenEntries (items : List (SelectionItem × ItemEnv))
    (max initialBatchSize : Nat) : ResolveEntriesResult :=
  match entriesLoop max initialBatchSize (totalExpectedOf items).1 items []
      [mkProgress (totalExpectedOf items).1 max []] (totalExpectedOf items).2
    with
  | (m, snaps, logs) => ⟨m, (m.map (·.2)).take max, snaps, logs⟩

/-! ### C2: placeholder-contract filtering -/

theorem mapSet_forall {P : String × TokenEntry → Prop}
    {m : List (String × TokenEntry)} {k : String} {v : TokenEntry}
    (hm : ∀ kv ∈ m, P kv) (hkv : P (k, v)) :
    ∀ kv ∈ mapSet m k v, P kv := by
  induction m with
  | nil =>
    intro kv hmem
    simp only [mapSet, List.mem_singleton] at hmem
    subst hmem
    exact hkv
  | cons p ps ih =>
    intro kv hmem
    simp only [mapSet] at hmem
    by_cases hp : p.1 = k
    · rw [if_pos hp] at hmem
      rcases List.mem_cons.mp hmem with h | h
      · subst h
        exact hkv
      · exact hm kv (by simp [h])
    · rw [if_neg hp] at hmem
      rcases List.mem_cons.mp hmem with h | h
      · subst h
        exact hm kv (by simp)
      · exact ih (fun kv hkv' => hm kv (by simp [hkv'])) kv h

theorem applyBatch_forall {P : String × TokenEntry → Prop}
    (batch : List TokenEntry) (m : List (String × TokenEntry))
    (hm : ∀ kv ∈ m, P kv)
    (hb : ∀ e ∈ batch, keepEntry e = true → P (e.tokenId, e)) :
    ∀ kv ∈ applyBatch m batch, P kv := by
  induction batch generalizing m with
  | nil => exact hm
  | cons e bs ih =>
    show ∀ kv ∈ applyBatch (if keepEntry e then mapSet m e.tokenId e else m)
      bs, P kv
    apply ih
    · by_cases hk : keepEntry e
      · rw [if_pos hk]
        exact mapSet_forall hm (hb e (by simp) hk)
      · rw [if_neg hk]
        exact hm
    · intro e' he' hke'
      exact hb e' (by simp [he']) hke'

theorem batchesFold_fst (batches : List (List TokenEntry))
    (m : List (String × TokenEntry)) (snaps : List ProgressSnapshot)
    (te : Int) (max : Nat) :
    (batches.foldl
        (fun (st : List (String × TokenEntry) × List ProgressSnapshot) batch =>
          let m2 := applyBatch st.1 batch
          (m2, st.2 ++ [mkProgress te max m2]))
        (m, snaps)).1
      = batches.foldl applyBatch m := by
  induction batches generalizing m snaps with
  | nil => rfl
  | cons b bs ih => simpa using ih (applyBatch m b) _

theorem foldl_applyBatch_forall {P : String × TokenEntry → Prop}
    (batches : List (List TokenEntry)) (m : List (String × TokenEntry))
    (hm : ∀ kv ∈ m, P kv)
    (hb : ∀ b ∈ batches, ∀ e ∈ b, keepEntry e = true → P (e.tokenId, e)) :
    ∀ kv ∈ batches.foldl applyBatch m, P kv := by
  induction batches generalizing m with
  | nil => exact hm
  | cons b bs ih =>
    exact ih (applyBatch m b)
      (applyBatch_forall b m hm fun e he => hb b (by simp) e he)
      (fun b' hb' => hb b' (by simp [hb']))

theorem entriesSearchStep_keep (mode : SearchMode) (value : String)
    (max ibs : Nat) (te : Int) (env : ItemEnv)
    (m : List (String × TokenEntry)) (snaps : List ProgressSnapshot)
    (hm : ∀ kv ∈ m, keepEntry kv.2 = true) :
    ∀ kv ∈ (entriesSearchStep mode value max ibs te env m snaps).1,
      keepEntry kv.2 = true := by
  unfold entriesSearchStep
  apply applyBatch_forall
  · rw [batchesFold_fst]
    exact foldl_applyBatch_forall _ m hm fun b _ e _ hke => hke
  · exact fun e _ hke => hke

theorem entriesLoop_keep (max ibs : Nat) (te : Int)
    (todo : List (SelectionItem × ItemEnv)) (m : List (String × TokenEntry))
    (snaps : List ProgressSnapshot) (logs : List QueryDesc)
    (htodo : ∀ p ∈ todo, p.1.type ≠ SelKind.token)
    (hm : ∀ kv ∈ m, keepEntry kv.2 = true) :
    ∀ kv ∈ (entriesLoop max ibs te todo m snaps logs).1,
      keepEntry kv.2 = true := by
  induction todo generalizing m snaps logs with
  | nil => exact hm
  | cons p rest ih =>
    obtain ⟨it, env⟩ := p
    have hty : it.type ≠ SelKind.token := htodo (it, env) (by simp)
    have hrest : ∀ p ∈ rest, p.1.type ≠ SelKind.token :=
      fun p hp => htodo p (by simp [hp])
    cases hk : it.type with
    | token => exact absurd hk hty
    | artist =>
      simp only [entriesLoop, hk]
      have hstep := entriesSearchStep_keep (toSearchMode .artist) it.value max
        ibs te env m snaps hm
      cases hsplit : entriesSearchStep (toSearchMode .artist) it.value max ibs
        te env m snaps with
      | mk m2 rest2 =>
        rw [hsplit] at hstep
        by_cases hbig : m2.length ≥ max <;>
          simp only [hbig, if_pos, if_neg, not_true, not_false_iff] <;>
          first
            | exact hstep
            | exact ih m2 rest2.1 (logs ++ rest2.2) hrest hstep
    | project =>
      simp only [entriesLoop, hk]
      have hstep := entriesSearchStep_keep (toSearchMode .project) it.value max
        ibs te env m snaps hm
      cases hsplit : entriesSearchStep (toSearchMode .project) it.value max ibs
        te env m snaps with
      | mk m2 rest2 =>
        rw [hsplit] at hstep
        by_cases hbig : m2.length ≥ max <;>
          simp only [hbig, if_pos, if_neg, not_true, not_false_iff] <;>
          first
            | exact hstep
            | exact ih m2 rest2.1 (logs ++ rest2.2) hrest hstep
    | collector =>
      simp only [entriesLoop, hk]
      have hstep := entriesSearchStep_keep (toSearchMode .collector) it.value
        max ibs te env m snaps hm
      cases hsplit : entriesSearchStep (toSearchMode .collector) it.value max
        ibs te env m snaps with
      | mk m2 rest2 =>
        rw [hsplit] at hstep
        by_cases hbig : m2.length ≥ max <;>
          simp only [hbig, if_pos, if_neg, not_true, not_false_iff] <;>
          first
            | exact hstep
            | exact ih m2 rest2.1 (logs ++ rest2.2) hrest hstep

/-- C2.  The claim fails on the token-id path: `tokensByIdWithLiveView`
does not drop a remote row whose contract address is the placeholder sentinel
— it only avoids the sentinel in the generator URL — so the returned
`TokenEntry` carries the sentinel `contractAddress`. -/
theorem C2_placeholder_counterexample :
    ((tokensByIdWithLiveView ["7"] 10
        [(none, some [{ emptyRow with token_id := some "7", contract_address := some ZERO_ENGINE_ADDRESS }])]).1.map
      fun e => e.contractAddress) = [some ZERO_ENGINE_ADDRESS] := by
  decide

/-- C2 (amended).  Under the artist, project and collector selection kinds,
`resolveSelectionToTokenEntries` never returns an entry whose lowercased
contract address equals the placeholder sentinel (`keepEntry` is the
source's filter); a token-kind item resolved through `tokensByIdWithLiveView`
retains such rows (see the counterexample), so the filtering guarantee holds
only for the non-token kinds. -/
theorem C2_placeholder_filtered_amended
    (items : List (SelectionItem × ItemEnv)) (max ibs : Nat)
    (h : ∀ p ∈ items, p.1.type ≠ SelKind.token) :
    ∀ e ∈ (resolveSelectionToTokenEntries items max ibs).entries,
      keepEntry e = true := by
  intro e he
  unfold resolveSelectionToTokenEntries at he
  cases hloop : entriesLoop max ibs (totalExpectedOf items).1 items []
      [mkProgress (totalExpectedOf items).1 max []] (totalExpectedOf items).2
    with
  | mk m rest =>
    rw [hloop] at he
    simp only at he
    have hmem := List.mem_of_mem_take he
    rcases List.mem_map.mp hmem with ⟨kv, hkv, rfl⟩
    have := entriesLoop_keep max ibs (totalExpectedOf items).1 items []
      [mkProgress (totalExpectedOf items).1 max []] (totalExpectedOf items).2
      h (by simp)
    rw [hloop] at this
    exact this kv hkv

/-- Witness for `C2_placeholder_filtered_amended` on a concrete project
selection whose remote page contains a sentinel row. -/
theorem C2_placeholder_filtered_amended_witness :
    (∀ p ∈ [((⟨SelKind.project, "P"⟩ : SelectionItem),
        (⟨some 2, [some [{ emptyRow with token_id := some "7", contract_address := some ZERO_ENGINE_ADDRESS }, { emptyRow with token_id := some "8", contract_address := some "0xabc" }]], none⟩ : ItemEnv))],
      p.1.type ≠ SelKind.token) ∧
    ∀ e ∈ (resolveSelectionToTokenEntries
        [((⟨SelKind.project, "P"⟩ : SelectionItem),
          (⟨some 2, [some [{ emptyRow with token_id := some "7", contract_address := some ZERO_ENGINE_ADDRESS }, { emptyRow with token_id := some "8", contract_address := some "0xabc" }]], none⟩ : ItemEnv))]
        100 500).entries,
      keepEntry e = true :=
  ⟨by decide, C2_placeholder_filtered_amended _ 100 500 (by decide)⟩

/-! ### C6, C7: which queries the resolvers issue -/

theorem idPages_logs_eq (desc : QueryDesc) (max : Nat)
    (pages : List (Option (List Row))) (acc : Nat) :
    ∀ d ∈ (idPages desc max pages acc).2, d = desc := by
  induction pages generalizing acc with
  | nil => simp [idPages]
  | cons resp rest ih =>
    intro d hd
    simp only [idPages] at hd
    by_cases hlt : acc < max
    · rw [if_pos hlt] at hd
      cases resp with
      | none => simpa using hd
      | some rows =>
        simp only at hd
        by_cases hempty : rows.isEmpty
        · rw [if_pos hempty] at hd
          simpa using hd
        · rw [if_neg hempty] at hd
          by_cases hshort : rows.length < 100
          · rw [if_pos hshort] at hd
            simpa using hd
          · rw [if_neg hshort] at hd
            simp only [List.mem_cons] at hd
            rcases hd with rfl | hd
            · rfl
            · exact ih _ d hd
    · rw [if_neg hlt] at hd
      simp at hd

theorem fetchUserAddresses_logs_not_tokens (term : String) (env : UserEnv) :
    ∀ d ∈ (fetchUserAddressesByTerm term env).2, isTokensQuery d = false := by
  unfold fetchUserAddressesByTerm
  by_cases hens : isEnsName term
  · rw [if_pos hens]
    cases env.ensAddress with
    | some resolved =>
      cases env.usersResp with
      | none => simp [isTokensQuery]
      | some list => by_cases h : (list.filterMap fun a => a.map toLowerStr).isEmpty <;> simp [isTokensQuery]
    | none => simp
  · rw [if_neg hens]
    by_cases haddr : isEthAddress term
    · rw [if_pos haddr]
      cases env.usersResp with
      | none => simp [isTokensQuery]
      | some list => simp [isTokensQuery]
    · rw [if_neg haddr]
      cases env.usersResp with
      | none => simp [isTokensQuery]
      | some list => simp [isTokensQuery]

/-- C6.  The claim fails: `resolveSelectionToTokenEntries` resolves a
`Collector` item through `searchTokensWithLiveViewProgressive`, which
queries the token index with `owner_address: { _ilike: '%<term>%' }` on the
literal entered term — here the ENS name `r4v3n.eth` — with no address
resolution at all. -/
theorem C6_collector_literal_counterexample :
    (resolveSelectionToTokenEntries
        [((⟨SelKind.collector, "r4v3n.eth"⟩ : SelectionItem),
          (⟨none, [none], none⟩ : ItemEnv))] 100 500).logs
      = [QueryDesc.liveCollectorIlike "%r4v3n.eth%"] := by
  decide

/-- C6 (amended).  In `searchTokensByCollector` (the collector path of
`resolveSelectionTokenIds`), when the entered term resolves to at least one
canonical owner address, every token-index query is the exact
`owner_address: { _in: addresses }` match on the resolved address set — the
literal term never reaches the token index.  (The entries path, and the
fallback when resolution yields no address, do query with the literal term,
as the counterexample shows.) -/
theorem C6_collector_resolved_addresses (term : String) (max : Nat)
    (uenv : UserEnv) (pages : List (Option (List Row)))
    (h : (fetchUserAddressesByTerm term uenv).1 ≠ []) :
    ∀ d ∈ (searchTokensByCollector term max uenv pages).2,
      isTokensQuery d = true →
        d = QueryDesc.tokensByOwnersIn (fetchUserAddressesByTerm term uenv).1
          := by
  intro d hd htok
  unfold searchTokensByCollector at hd
  simp only [List.mem_append] at hd
  rcases hd with hu | hp
  · have := fetchUserAddresses_logs_not_tokens term uenv d hu
    rw [htok] at this
    cases this
  · have hne : ((fetchUserAddressesByTerm term uenv).1.isEmpty) = false := by
      cases hl : (fetchUserAddressesByTerm term uenv).1 with
      | nil => exact absurd hl h
      | cons a as => simp
    rw [hne] at hp
    simp only [Bool.not_false, if_pos] at hp
    exact idPages_logs_eq _ max pages 0 d hp

/-- Witness for `C6_collector_resolved_addresses`: the ENS name resolves to
one address and the single token-index query filters by that address set. -/
theorem C6_collector_resolved_addresses_witness :
    (fetchUserAddressesByTerm "r4v3n.eth" ⟨some "0xabc", none⟩).1 ≠ [] ∧
    ∀ d ∈ (searchTokensByCollector "r4v3n.eth" 100 ⟨some "0xabc", none⟩
        [none]).2,
      isTokensQuery d = true →
        d = QueryDesc.tokensByOwnersIn
          (fetchUserAddressesByTerm "r4v3n.eth" ⟨some "0xabc", none⟩).1 :=
  ⟨by decide, C6_collector_resolved_addresses "r4v3n.eth" 100 _ _ (by decide)⟩

/-- C7.  The claim fails: `resolveSelectionToTokenEntries` resolves an
`Artist` item through `searchTokensWithLiveViewProgressive`, which issues the
fuzzy `artist_name: { _ilike: '%<term>%' }` query immediately — no exact
artist query is ever issued on this path. -/
theorem C7_artist_fuzzy_counterexample :
    (resolveSelectionToTokenEntries
        [((⟨SelKind.artist, "Snowfro"⟩ : SelectionItem),
          (⟨none, [none], none⟩ : ItemEnv))] 100 500).logs
      = [QueryDesc.liveArtistIlike "%Snowfro%"] := by
  decide

/-- C7 (amended).  In `resolveSelectionTokenIds` the two-tier strategy holds:
for an artist item the exact case-sensitive query runs first, and when it
returns at least one row every query issued for the item is that exact
query — no fuzzy artist query is made.  (The entries path issues the fuzzy
query directly, as the counterexample shows.) -/
theorem C7_artist_exact_first (name : String) (env : IdsItemEnv) (max : Nat)
    (h : (searchTokensByArtistExact name max env.exactPages).1 ≠ []) :
    ∀ d ∈ (resolveSelectionTokenIds
        [(⟨SelKind.artist, name⟩, env)] max).2,
      d = QueryDesc.artistExact name := by
  have hne : ((searchTokensByArtistExact name max env.exactPages).1.isEmpty)
      = false := by
    cases hl : (searchTokensByArtistExact name max env.exactPages).1 with
    | nil => exact absurd hl h
    | cons a as => simp
  have hlogs : (resolveSelectionTokenIds
      [(⟨SelKind.artist, name⟩, env)] max).2
        = (searchTokensByArtistExact name max env.exactPages).2 := by
    unfold resolveSelectionTokenIds resolveIdsLoop
    simp only [List.length_nil, Nat.sub_zero, hne, Bool.false_eq_true,
      if_false, List.nil_append]
    cases har : addRowsToSets
        ((searchTokensByArtistExact name max env.exactPages).1.filter
          keepIdRow) [] [] with
    | mk i2 t2 =>
      simp only [resolveIdsLoop]
      split <;> rfl
  intro d hd
  rw [hlogs] at hd
  have hexlogs : (searchTokensByArtistExact name max env.exactPages).2
      = (idPages (QueryDesc.artistExact name) max env.exactPages 0).2 := by
    unfold searchTokensByArtistExact
    cases idPages (QueryDesc.artistExact name) max env.exactPages 0 with
    | mk rows logs => rfl
  rw [hexlogs] at hd
  exact idPages_logs_eq _ max env.exactPages 0 d hd

/-- Witness for `C7_artist_exact_first`: the exact query returns a row, and
the run's only query is the exact one. -/
theorem C7_artist_exact_first_witness :
    (searchTokensByArtistExact "A" 100
        (⟨[some [{ emptyRow with token_id := some "1", id := some "0xa-1" }]], [], ⟨none, none⟩, []⟩ : IdsItemEnv).exactPages).1 ≠ [] ∧
    ∀ d ∈ (resolveSelectionTokenIds
        [(⟨SelKind.artist, "A"⟩,
          (⟨[some [{ emptyRow with token_id := some "1", id := some "0xa-1" }]], [], ⟨none, none⟩, []⟩ : IdsItemEnv))] 100).2,
      d = QueryDesc.artistExact "A" :=
  ⟨by decide, C7_artist_exact_first "A" _ 100 (by decide)⟩

/-! ### C8: empty token ids are not rejected -/

theorem rowToEntry_tokenId {r : Row} {e : TokenEntry}
    (h : rowToEntry r = some e) : r.token_id = some e.tokenId := by
  unfold rowToEntry at h
  cases htid : r.token_id with
  | none =>
    rw [htid] at h
    cases h
  | some tid =>
    rw [htid] at h
    simp only [Option.some.injEq] at h
    rw [← h]

theorem entryGuarded_tokenId (r : Row) (tid : String) :
    (entryGuarded r tid).tokenId = tid := rfl

theorem livePages_no_empty_tid (desc : QueryDesc) (max : Nat) :
    ∀ (pages : List (Option (List Row))) (ps acc : Nat),
      (∀ p ∈ pages, ∀ rows, p = some rows → ∀ r ∈ rows,
        r.token_id ≠ some "") →
      ∀ e ∈ ((livePages desc max pages ps acc).1).flatten, e.tokenId ≠ "" := by
  intro pages
  induction pages with
  | nil =>
    intro ps acc _ e he
    simp [livePages] at he
  | cons resp rest ih =>
    intro ps acc h e he
    simp only [livePages] at he
    by_cases hlt : acc < max
    · rw [if_pos hlt] at he
      cases resp with
      | none => simp at he
      | some rows =>
        have hrows : ∀ r ∈ rows, r.token_id ≠ some "" :=
          h (some rows) (by simp) rows rfl
        simp only at he
        by_cases hempty : rows.isEmpty
        · rw [if_pos hempty] at he
          simp at he
        · rw [if_neg hempty] at he
          have hbatch : ∀ e ∈ rows.filterMap rowToEntry, e.tokenId ≠ "" := by
            intro e' he'
            rcases List.mem_filterMap.mp he' with ⟨r, hr, hconv⟩
            intro hcontra
            have := rowToEntry_tokenId hconv
            rw [hcontra] at this
            exact hrows r hr this
          by_cases hshort : rows.length < ps
          · rw [if_pos hshort] at he
            simp only [List.flatten, List.append_nil] at he
            exact hbatch e (by simpa using he)
          · rw [if_neg hshort] at he
            cases hlp : livePages desc max rest 100
                (acc + (rows.filterMap rowToEntry).length) with
            | mk bs ls =>
              rw [hlp] at he
              simp only [List.flatten_cons, List.mem_append] at he
              rcases he with he | he
              · exact hbatch e he
              · have := ih 100 (acc + (rows.filterMap rowToEntry).length)
                  (fun p hp => h p (by simp [hp]))
                rw [hlp] at this
                exact this e he
    · rw [if_neg hlt] at he
      simp at he

theorem progressive_no_empty_tid (mode : SearchMode) (term : String)
    (max ibs : Nat) (pages : List (Option (List Row)))
    (h : ∀ p ∈ pages, ∀ rows, p = some rows → ∀ r ∈ rows,
      r.token_id ≠ some "") :
    ∀ e ∈ (searchTokensWithLiveViewProgressive mode term max ibs
        pages).results, e.tokenId ≠ "" := by
  intro e he
  unfold searchTokensWithLiveViewProgressive at he
  cases hlp : livePages (progDesc mode term) max pages (min ibs 100) 0 with
  | mk bs ls =>
    rw [hlp] at he
    simp only at he
    have := livePages_no_empty_tid (progDesc mode term) max pages
      (min ibs 100) 0 h
    rw [hlp] at this
    exact this e (List.mem_of_mem_take he)

theorem liveView_no_empty_tid (mode : SearchMode) (term : String)
    (max : Nat) (pages : List (Option (List Row)))
    (h : ∀ p ∈ pages, ∀ rows, p = some rows → ∀ r ∈ rows,
      r.token_id ≠ some "") :
    ∀ e ∈ (searchTokensWithLiveView mode term max pages).1, e.tokenId ≠ "" := by
  intro e he
  unfold searchTokensWithLiveView at he
  cases hlp : livePages (liveFuzzyDesc mode term) max pages 100 0 with
  | mk bs ls =>
    rw [hlp] at he
    simp only at he
    have := livePages_no_empty_tid (liveFuzzyDesc mode term) max pages 100 0 h
    rw [hlp] at this
    exact this e (List.mem_of_mem_take he)

theorem uniqueRowStep_entries (st : List String × List TokenEntry)
    (row : Row) :
    (uniqueRowStep st row).2 = st.2 ∨
    ∃ tid, row.token_id = some tid ∧
      (uniqueRowStep st row).2 = st.2 ++ [entryGuarded row tid] := by
  unfold uniqueRowStep
  cases htid : row.token_id with
  | none => exact Or.inl rfl
  | some tid =>
    cases hid : row.id with
    | none => exact Or.inl rfl
    | some uid =>
      by_cases hmem : uid ∈ st.1
      · exact Or.inl (by simp [hmem])
      · exact Or.inr ⟨tid, rfl, by simp [hmem]⟩

theorem plainRowStep_entries (st : List String × List TokenEntry)
    (row : Row) :
    (plainRowStep st row).2 = st.2 ∨
    ∃ tid, row.token_id = some tid ∧
      (plainRowStep st row).2 = st.2 ++ [entryGuarded row tid] := by
  unfold plainRowStep
  cases htid : row.token_id with
  | none => exact Or.inl rfl
  | some tid =>
    cases heid : effectiveId row with
    | none => exact Or.inl rfl
    | some eid =>
      by_cases hmem : eid ∈ st.1
      · exact Or.inl (by simp [hmem])
      · exact Or.inr ⟨tid, rfl, by simp [hmem]⟩

theorem foldl_rowStep_no_empty
    (step : List String × List TokenEntry → Row → List String × List TokenEntry)
    (hstep : ∀ st row, (step st row).2 = st.2 ∨
      ∃ tid, row.token_id = some tid ∧
        (step st row).2 = st.2 ++ [entryGuarded row tid]) :
    ∀ (rows : List Row) (st : List String × List TokenEntry),
      (∀ r ∈ rows, r.token_id ≠ some "") →
      (∀ e ∈ st.2, e.tokenId ≠ "") →
      ∀ e ∈ (rows.foldl step st).2, e.tokenId ≠ "" := by
  intro rows
  induction rows with
  | nil =>
    intro st _ hent e he
    exact hent e he
  | cons r rs ih =>
    intro st hrows hent e he
    rw [List.foldl_cons] at he
    refine ih (step st r) (fun r' hr' => hrows r' (by simp [hr'])) ?_ e he
    rcases hstep st r with heq | ⟨tid, htid, heq⟩
    · rw [heq]
      exact hent
    · rw [heq]
      intro e' he'
      rcases List.mem_append.mp he' with h1 | h1
      · exact hent e' h1
      · have : e' = entryGuarded r tid := by simpa using h1
        rw [this, entryGuarded_tokenId]
        intro hcontra
        rw [hcontra] at htid
        exact hrows r (by simp) htid

theorem uniqueRowsFold_no_empty (rows : List Row) (seen : List String)
    (entries : List TokenEntry)
    (hrows : ∀ r ∈ rows, r.token_id ≠ some "")
    (hent : ∀ e ∈ entries, e.tokenId ≠ "") :
    ∀ e ∈ (uniqueRowsFold rows seen entries).2, e.tokenId ≠ "" :=
  foldl_rowStep_no_empty uniqueRowStep uniqueRowStep_entries rows
    (seen, entries) hrows hent

theorem plainRowsFold_no_empty (rows : List Row) (seen : List String)
    (entries : List TokenEntry)
    (hrows : ∀ r ∈ rows, r.token_id ≠ some "")
    (hent : ∀ e ∈ entries, e.tokenId ≠ "") :
    ∀ e ∈ (plainRowsFold rows seen entries).2, e.tokenId ≠ "" :=
  foldl_rowStep_no_empty plainRowStep plainRowStep_entries rows
    (seen, entries) hrows hent

theorem chunkBranch_no_empty
    (fold : List Row → List String → List TokenEntry →
      List String × List TokenEntry)
    (hfold : ∀ rows seen entries,
      (∀ r ∈ rows, r.token_id ≠ some "") →
      (∀ e ∈ entries, e.tokenId ≠ "") →
      ∀ e ∈ (fold rows seen entries).2, e.tokenId ≠ "")
    (rowsOpt : Option (List Row)) (desc : QueryDesc)
    (st : List String × List TokenEntry × List QueryDesc)
    (hrows : ∀ rows, rowsOpt = some rows → ∀ r ∈ rows, r.token_id ≠ some "")
    (hst : ∀ e ∈ st.2.1, e.tokenId ≠ "") :
    ∀ e ∈ (chunkBranch fold rowsOpt desc st).2.1, e.tokenId ≠ "" := by
  unfold chunkBranch
  cases rowsOpt with
  | none => exact hst
  | some rows =>
    cases hf : fold rows st.1 st.2.1 with
    | mk s e2 =>
      have h2 := hfold rows st.1 st.2.1 (hrows rows rfl) hst
      rw [hf] at h2
      simp only [hf]
      simpa using h2

theorem tokensByIdChunks_no_empty (max : Nat) :
    ∀ (chunksL : List (List String))
      (envs : List (Option (List Row) × Option (List Row)))
      (seen : List String) (entries : List TokenEntry) (logs : List QueryDesc),
      (∀ env ∈ envs, ∀ rows, (env.1 = some rows ∨ env.2 = some rows) →
        ∀ r ∈ rows, r.token_id ≠ some "") →
      (∀ e ∈ entries, e.tokenId ≠ "") →
      ∀ e ∈ (tokensByIdChunks max chunksL envs seen entries logs).1,
        e.tokenId ≠ "" := by
  intro chunksL
  induction chunksL with
  | nil =>
    intro envs seen entries logs _ hent e he
    exact hent e he
  | cons chunk restChunks ih =>
    intro envs seen entries logs h hent e he
    simp only [tokensByIdChunks] at he
    by_cases hlt : entries.length < max
    · rw [if_pos hlt] at he
      have henv1 : ∀ rows, (envs.headD (none, none)).1 = some rows →
          ∀ r ∈ rows, r.token_id ≠ some "" := by
        cases envs with
        | nil => intro rows hr; cases hr
        | cons e0 erest =>
          intro rows hr
          exact h e0 (by simp) rows (Or.inl hr)
      have henv2 : ∀ rows, (envs.headD (none, none)).2 = some rows →
          ∀ r ∈ rows, r.token_id ≠ some "" := by
        cases envs with
        | nil => intro rows hr; cases hr
        | cons e0 erest =>
          intro rows hr
          exact h e0 (by simp) rows (Or.inr hr)
      have htail : ∀ env ∈ envs.tail, ∀ rows,
          (env.1 = some rows ∨ env.2 = some rows) →
          ∀ r ∈ rows, r.token_id ≠ some "" := by
        cases envs with
        | nil => intro env henv; cases henv
        | cons e0 erest =>
          intro env henv
          exact h env (by simp [List.tail_cons] at henv ⊢; exact Or.inr henv)
      have hst1 : ∀ e ∈ (if (chunk.filter isUniqueIdFormat).isEmpty then
          (seen, entries, logs)
          else chunkBranch uniqueRowsFold (envs.headD (none, none)).1
            (.tokensByUniqueIds (chunk.filter isUniqueIdFormat))
            (seen, entries, logs)).2.1, e.tokenId ≠ "" := by
        by_cases hu : (chunk.filter isUniqueIdFormat).isEmpty
        · rw [if_pos hu]
          exact hent
        · rw [if_neg hu]
          exact chunkBranch_no_empty uniqueRowsFold uniqueRowsFold_no_empty
            _ _ _ henv1 hent
      have hst2 : ∀ e ∈ (if (chunk.filter fun s => !isUniqueIdFormat s).isEmpty
          then (if (chunk.filter isUniqueIdFormat).isEmpty then
              (seen, entries, logs)
            else chunkBranch uniqueRowsFold (envs.headD (none, none)).1
              (.tokensByUniqueIds (chunk.filter isUniqueIdFormat))
              (seen, entries, logs))
          else chunkBranch plainRowsFold (envs.headD (none, none)).2
            (.tokensByPlainIds (chunk.filter fun s => !isUniqueIdFormat s))
            (if (chunk.filter isUniqueIdFormat).isEmpty then
              (seen, entries, logs)
            else chunkBranch uniqueRowsFold (envs.headD (none, none)).1
              (.tokensByUniqueIds (chunk.filter isUniqueIdFormat))
              (seen, entries, logs))).2.1, e.tokenId ≠ "" := by
        by_cases hp : (chunk.filter fun s => !isUniqueIdFormat s).isEmpty
        · rw [if_pos hp]
          exact hst1
        · rw [if_neg hp]
          exact chunkBranch_no_empty plainRowsFold plainRowsFold_no_empty
            _ _ _ henv2 hst1
      exact ih envs.tail _ _ _ htail hst2 e he
    · rw [if_neg hlt] at he
      exact hent e he

/-- C8.  The claim fails: entry construction only checks
`typeof token_id === 'string'`, so a remote payload whose `token_id` is the
empty string produces a `TokenEntry` with an empty `tokenId`. -/
theorem C8_empty_tokenId_counterexample :
    ((searchTokensWithLiveViewProgressive .artist "X" 10 100
        [some [{ emptyRow with token_id := some "" }]]).results.map
      fun e => e.tokenId) = [""] := by
  decide

/-- C8 (amended).  `searchTokensWithLiveView`,
`searchTokensWithLiveViewProgressive` and `tokensByIdWithLiveView` never
construct a `TokenEntry` from a row whose `token_id` is absent or not a
string, and whenever no remote row carries the empty string as its
`token_id`, no returned entry has an empty `tokenId`; the empty string
itself is not rejected (see the counterexample). -/
theorem C8_empty_tokenId_amended :
    (∀ (mode : SearchMode) (term : String) (max : Nat)
      (pages : List (Option (List Row))),
      (∀ p ∈ pages, ∀ rows, p = some rows → ∀ r ∈ rows,
        r.token_id ≠ some "") →
      ∀ e ∈ (searchTokensWithLiveView mode term max pages).1,
        e.tokenId ≠ "") ∧
    (∀ (mode : SearchMode) (term : String) (max ibs : Nat)
      (pages : List (Option (List Row))),
      (∀ p ∈ pages, ∀ rows, p = some rows → ∀ r ∈ rows,
        r.token_id ≠ some "") →
      ∀ e ∈ (searchTokensWithLiveViewProgressive mode term max ibs
          pages).results, e.tokenId ≠ "") ∧
    (∀ (ids : List String) (max : Nat)
      (envs : List (Option (List Row) × Option (List Row))),
      (∀ env ∈ envs, ∀ rows, (env.1 = some rows ∨ env.2 = some rows) →
        ∀ r ∈ rows, r.token_id ≠ some "") →
      ∀ e ∈ (tokensByIdWithLiveView ids max envs).1, e.tokenId ≠ "") := by
  refine ⟨liveView_no_empty_tid, progressive_no_empty_tid, ?_⟩
  intro ids max envs h e he
  unfold tokensByIdWithLiveView at he
  by_cases hnil : ids.isEmpty
  · rw [if_pos hnil] at he
    simp at he
  · rw [if_neg hnil] at he
    cases hc : tokensByIdChunks max (chunks50 ids) envs [] [] [] with
    | mk entries logs =>
      rw [hc] at he
      simp only at he
      have := tokensByIdChunks_no_empty max (chunks50 ids) envs [] [] [] h
        (by simp)
      rw [hc] at this
      exact this e (List.mem_of_mem_take he)

/-- Witness for `C8_empty_tokenId_amended` on a concrete page with a
non-empty token id. -/
theorem C8_empty_tokenId_amended_witness :
    (∀ p ∈ [some [({ emptyRow with token_id := some "5" } : Row)]],
      ∀ rows, p = some rows → ∀ r ∈ rows, r.token_id ≠ some "") ∧
    ∀ e ∈ (searchTokensWithLiveView .artist "X" 10
        [some [({ emptyRow with token_id := some "5" } : Row)]]).1,
      e.tokenId ≠ "" :=
  ⟨by decide, C8_empty_tokenId_amended.1 .artist "X" 10 _ (by decide)⟩

/-! ### C4: the deduplication key actually used -/

theorem mapSet_fst (m : List (String × TokenEntry)) (k : String)
    (v : TokenEntry) :
    (mapSet m k v).map Prod.fst =
      if k ∈ m.map Prod.fst then m.map Prod.fst
      else m.map Prod.fst ++ [k] := by
  induction m with
  | nil => simp [mapSet]
  | cons p ps ih =>
    by_cases hp : p.1 = k
    · simp [mapSet, hp]
    · simp only [mapSet, if_neg hp, List.map_cons]
      rw [ih]
      by_cases hk : k ∈ ps.map Prod.fst
      · rw [if_pos hk, if_pos (by simp [hk])]
      · rw [if_neg hk, if_neg (by simp [hk, Ne.symm hp])]
        simp

theorem mapSet_nodup (m : List (String × TokenEntry)) (k : String)
    (v : TokenEntry) (h : (m.map Prod.fst).Nodup) :
    ((mapSet m k v).map Prod.fst).Nodup := by
  rw [mapSet_fst]
  by_cases hk : k ∈ m.map Prod.fst
  · rw [if_pos hk]
    exact h
  · rw [if_neg hk, ← List.concat_eq_append]
    exact List.Nodup.concat hk h

theorem applyBatch_nodup (batch : List TokenEntry)
    (m : List (String × TokenEntry)) (h : (m.map Prod.fst).Nodup) :
    ((applyBatch m batch).map Prod.fst).Nodup := by
  induction batch generalizing m with
  | nil => exact h
  | cons e bs ih =>
    show ((applyBatch (if keepEntry e then mapSet m e.tokenId e else m)
      bs).map Prod.fst).Nodup
    apply ih
    by_cases hk : keepEntry e
    · rw [if_pos hk]
      exact mapSet_nodup m e.tokenId e h
    · rw [if_neg hk]
      exact h

theorem foldl_applyBatch_nodup (batches : List (List TokenEntry))
    (m : List (String × TokenEntry)) (h : (m.map Prod.fst).Nodup) :
    ((batches.foldl applyBatch m).map Prod.fst).Nodup := by
  induction batches generalizing m with
  | nil => exact h
  | cons b bs ih => exact ih (applyBatch m b) (applyBatch_nodup b m h)

theorem entriesSearchStep_nodup (mode : SearchMode) (value : String)
    (max ibs : Nat) (te : Int) (env : ItemEnv)
    (m : List (String × TokenEntry)) (snaps : List ProgressSnapshot)
    (h : (m.map Prod.fst).Nodup) :
    (((entriesSearchStep mode value max ibs te env m snaps).1).map
      Prod.fst).Nodup := by
  unfold entriesSearchStep
  apply applyBatch_nodup
  rw [batchesFold_fst]
  exact foldl_applyBatch_nodup _ m h

theorem entriesSearchStep_tokenId_keys {P : String × TokenEntry → Prop}
    (hP : ∀ e : TokenEntry, P (e.tokenId, e))
    (mode : SearchMode) (value : String) (max ibs : Nat) (te : Int)
    (env : ItemEnv) (m : List (String × TokenEntry))
    (snaps : List ProgressSnapshot) (hm : ∀ kv ∈ m, P kv) :
    ∀ kv ∈ (entriesSearchStep mode value max ibs te env m snaps).1, P kv := by
  unfold entriesSearchStep
  apply applyBatch_forall
  · rw [batchesFold_fst]
    exact foldl_applyBatch_forall _ m hm fun b _ e _ _ => hP e
  · exact fun e _ _ => hP e

/-- The key discipline of the entries map: the key is the entry's own
`tokenId`, except that a token-kind item is keyed by the raw item value. -/
def GoodKv (items : List (SelectionItem × ItemEnv))
    (kv : String × TokenEntry) : Prop :=
  kv.1 = kv.2.tokenId ∨
    ∃ p ∈ items, p.1.type = SelKind.token ∧ p.1.value = kv.1

theorem entriesLoop_goodkeys (items : List (SelectionItem × ItemEnv))
    (max ibs : Nat) (te : Int) :
    ∀ (todo : List (SelectionItem × ItemEnv))
      (m : List (String × TokenEntry)) (snaps : List ProgressSnapshot)
      (logs : List QueryDesc),
      (∀ p ∈ todo, p ∈ items) →
      (m.map Prod.fst).Nodup →
      (∀ kv ∈ m, GoodKv items kv) →
      ((entriesLoop max ibs te todo m snaps logs).1.map Prod.fst).Nodup ∧
      ∀ kv ∈ (entriesLoop max ibs te todo m snaps logs).1, GoodKv items kv := by
  intro todo
  induction todo with
  | nil =>
    intro m snaps logs _ hnodup hgood
    exact ⟨hnodup, hgood⟩
  | cons p rest ih =>
    obtain ⟨it, env⟩ := p
    intro m snaps logs hsub hnodup hgood
    have hrest : ∀ p ∈ rest, p ∈ items := fun p hp => hsub p (by simp [hp])
    cases hty : it.type with
    | token =>
      simp only [entriesLoop, hty]
      cases hh : (tokensByIdWithLiveView [it.value] 1
          [(env.tokenResp, env.tokenResp)]).1.head? with
      | none =>
        simp only
        split
        · exact ⟨hnodup, hgood⟩
        · exact ih m snaps _ hrest hnodup hgood
      | some e =>
        simp only
        have hnodup2 := mapSet_nodup m it.value e hnodup
        have hgood2 : ∀ kv ∈ mapSet m it.value e, GoodKv items kv := by
          apply mapSet_forall hgood
          exact Or.inr ⟨(it, env), hsub (it, env) (by simp), hty, rfl⟩
        split
        · exact ⟨hnodup2, hgood2⟩
        · exact ih _ _ _ hrest hnodup2 hgood2
    | artist =>
      simp only [entriesLoop, hty]
      cases hsplit : entriesSearchStep (toSearchMode .artist) it.value max ibs
        te env m snaps with
      | mk m2 rest2 =>
        have hnodup2 := entriesSearchStep_nodup (toSearchMode .artist) it.value
          max ibs te env m snaps hnodup
        have hgood2 := entriesSearchStep_tokenId_keys
          (fun e => Or.inl rfl) (toSearchMode .artist) it.value max ibs te env
          m snaps hgood
        rw [hsplit] at hnodup2 hgood2
        split
        · exact ⟨hnodup2, hgood2⟩
        · exact ih m2 rest2.1 _ hrest hnodup2 hgood2
    | project =>
      simp only [entriesLoop, hty]
      cases hsplit : entriesSearchStep (toSearchMode .project) it.value max ibs
        te env m snaps with
      | mk m2 rest2 =>
        have hnodup2 := entriesSearchStep_nodup (toSearchMode .project)
          it.value max ibs te env m snaps hnodup
        have hgood2 := entriesSearchStep_tokenId_keys
          (fun e => Or.inl rfl) (toSearchMode .project) it.value max ibs te env
          m snaps hgood
        rw [hsplit] at hnodup2 hgood2
        split
        · exact ⟨hnodup2, hgood2⟩
        · exact ih m2 rest2.1 _ hrest hnodup2 hgood2
    | collector =>
      simp only [entriesLoop, hty]
      cases hsplit : entriesSearchStep (toSearchMode .collector) it.value max
        ibs te env m snaps with
      | mk m2 rest2 =>
        have hnodup2 := entriesSearchStep_nodup (toSearchMode .collector)
          it.value max ibs te env m snaps hnodup
        have hgood2 := entriesSearchStep_tokenId_keys
          (fun e => Or.inl rfl) (toSearchMode .collector) it.value max ibs te
          env m snaps hgood
        rw [hsplit] at hnodup2 hgood2
        split
        · exact ⟨hnodup2, hgood2⟩
        · exact ih m2 rest2.1 _ hrest hnodup2 hgood2

/-- C4.  The claim fails: `resolveSelectionToTokenEntries` dedups by
`entry.tokenId` alone (`entriesMap.set(entry.tokenId, entry)`), so two
distinct logical tokens — contracts `0xaaaa` and `0xbbbb`, both with token id
`42` — collapse into a single entry (the later row wins) instead of each
appearing exactly once. -/
theorem C4_dedup_counterexample :
    ((resolveSelectionToTokenEntries
        [((⟨SelKind.project, "P"⟩ : SelectionItem),
          (⟨some 2, [some [{ emptyRow with token_id := some "42", contract_address := some "0xaaaa" }, { emptyRow with token_id := some "42", contract_address := some "0xbbbb" }]], none⟩ : ItemEnv))]
        100 500).entries.map fun e => (e.tokenId, e.contractAddress))
      = [("42", some "0xbbbb")] := by
  decide

/-- C4 (amended).  In `resolveSelectionToTokenEntries` the deduplication key
is not the claimed row-id / contract+tokenId hierarchy: every map key is the
entry's own `tokenId` (or, for a token-kind item, the raw item value), and
the final entry list has pairwise-distinct keys under that scheme — so
distinct tokens sharing a `token_id` across contracts are collapsed.  (The
row-id-then-contract+tokenId-then-tokenId hierarchy is used only inside
`tokensByIdWithLiveView`.) -/
theorem C4_dedup_key_amended (items : List (SelectionItem × ItemEnv))
    (max ibs : Nat) :
    (((resolveSelectionToTokenEntries items max ibs).assoc).map
      Prod.fst).Nodup ∧
    ∀ kv ∈ (resolveSelectionToTokenEntries items max ibs).assoc,
      kv.1 = kv.2.tokenId ∨
        ∃ p ∈ items, p.1.type = SelKind.token ∧ p.1.value = kv.1 := by
  unfold resolveSelectionToTokenEntries
  cases hloop : entriesLoop max ibs (totalExpectedOf items).1 items []
      [mkProgress (totalExpectedOf items).1 max []] (totalExpectedOf items).2
    with
  | mk m rest =>
    have := entriesLoop_goodkeys items max ibs (totalExpectedOf items).1 items
      [] [mkProgress (totalExpectedOf items).1 max []]
      (totalExpectedOf items).2 (fun p hp => hp) (by simp) (by simp)
    rw [hloop] at this
    exact this

/-! ### C5: progress monotonicity and percentage bounds -/

theorem mem_of_getLast? {α : Type} {l : List α} {x : α}
    (h : x ∈ l.getLast?) : x ∈ l := by
  rcases List.mem_getLast?_eq_getLast h with ⟨hne, rfl⟩
  exact List.getLast_mem hne

theorem mapSet_length_ge (m : List (String × TokenEntry)) (k : String)
    (v : TokenEntry) : m.length ≤ (mapSet m k v).length := by
  induction m with
  | nil => simp [mapSet]
  | cons p ps ih =>
    by_cases hp : p.1 = k
    · simp [mapSet, hp]
    · simp only [mapSet, if_neg hp, List.length_cons]
      exact Nat.succ_le_succ ih

theorem applyBatch_length_ge (batch : List TokenEntry)
    (m : List (String × TokenEntry)) :
    m.length ≤ (applyBatch m batch).length := by
  induction batch generalizing m with
  | nil => exact le_rfl
  | cons e bs ih =>
    refine le_trans ?_
      (ih (if keepEntry e then mapSet m e.tokenId e else m))
    by_cases hk : keepEntry e
    · rw [if_pos hk]
      exact mapSet_length_ge m e.tokenId e
    · rw [if_neg hk]

theorem mkProgress_loaded (te : Int) (max : Nat)
    (m : List (String × TokenEntry)) :
    (mkProgress te max m).loaded = m.length := rfl

theorem mkProgress_pct_bounds (te : Int) (max : Nat)
    (m : List (String × TokenEntry)) (hmax : 1 ≤ max) :
    0 ≤ (mkProgress te max m).percentage ∧
      (mkProgress te max m).percentage ≤ 100 := by
  unfold mkProgress
  by_cases hte : 0 < te
  · simp only [hte, if_pos]
    constructor
    · apply le_min
      · have htot : (0 : ℚ) ≤ ((min te (max : Int) : Int) : ℚ) := by
          have : (1 : Int) ≤ min te (max : Int) := by
            apply le_min hte
            exact_mod_cast hmax
          exact_mod_cast le_trans zero_le_one this
        positivity
      · norm_num
    · exact min_le_right _ _
  · simp only [hte, if_neg, if_false]
    norm_num

/-- The snapshot invariant of one `resolveSelectionToTokenEntries` run:
snapshots are `loaded`-monotone, every snapshot's `loaded` is bounded by the
current entry-map size, and every percentage lies in `[0, 100]`. -/
def SnapsOk (m : List (String × TokenEntry))
    (snaps : List ProgressSnapshot) : Prop :=
  List.Chain' (fun a b => a.loaded ≤ b.loaded) snaps ∧
  (∀ s ∈ snaps, s.loaded ≤ m.length) ∧
  (∀ s ∈ snaps, 0 ≤ s.percentage ∧ s.percentage ≤ 100)

theorem snapsOk_weaken {m m2 : List (String × TokenEntry)}
    {snaps : List ProgressSnapshot} (hok : SnapsOk m snaps)
    (hlen : m.length ≤ m2.length) : SnapsOk m2 snaps :=
  ⟨hok.1, fun s hs => le_trans (hok.2.1 s hs) hlen, hok.2.2⟩

theorem snapsOk_append {m m2 : List (String × TokenEntry)}
    {snaps : List ProgressSnapshot} (te : Int) {max : Nat}
    (hmax : 1 ≤ max) (hok : SnapsOk m snaps) (hlen : m.length ≤ m2.length) :
    SnapsOk m2 (snaps ++ [mkProgress te max m2]) := by
  refine ⟨?_, ?_, ?_⟩
  · rw [List.chain'_append]
    refine ⟨hok.1, List.chain'_singleton _, ?_⟩
    intro a ha b hb
    have hb' : b = mkProgress te max m2 := by
      have := hb
      simp only [List.head?_cons, Option.mem_def, Option.some.injEq] at this
      exact this.symm
    rw [hb', mkProgress_loaded]
    exact le_trans (hok.2.1 a (mem_of_getLast? ha)) hlen
  · intro s hs
    rcases List.mem_append.mp hs with h1 | h1
    · exact le_trans (hok.2.1 s h1) hlen
    · have : s = mkProgress te max m2 := by simpa using h1
      rw [this, mkProgress_loaded]
  · intro s hs
    rcases List.mem_append.mp hs with h1 | h1
    · exact hok.2.2 s h1
    · have : s = mkProgress te max m2 := by simpa using h1
      rw [this]
      exact mkProgress_pct_bounds te max m2 hmax

theorem batchesFold_snapsOk (te : Int) (max : Nat) (hmax : 1 ≤ max)
    (batches : List (List TokenEntry)) :
    ∀ (m : List (String × TokenEntry)) (snaps : List ProgressSnapshot),
      SnapsOk m snaps →
      SnapsOk
        (batches.foldl
          (fun (st : List (String × TokenEntry) × List ProgressSnapshot)
              batch =>
            let m2 := applyBatch st.1 batch
            (m2, st.2 ++ [mkProgress te max m2]))
          (m, snaps)).1
        (batches.foldl
          (fun (st : List (String × TokenEntry) × List ProgressSnapshot)
              batch =>
            let m2 := applyBatch st.1 batch
            (m2, st.2 ++ [mkProgress te max m2]))
          (m, snaps)).2 := by
  induction batches with
  | nil =>
    intro m snaps hok
    exact hok
  | cons b bs ih =>
    intro m snaps hok
    exact ih (applyBatch m b) (snaps ++ [mkProgress te max (applyBatch m b)])
      (snapsOk_append te hmax hok (applyBatch_length_ge b m))

theorem entriesSearchStep_snapsOk (mode : SearchMode) (value : String)
    (max ibs : Nat) (te : Int) (env : ItemEnv) (hmax : 1 ≤ max)
    (m : List (String × TokenEntry)) (snaps : List ProgressSnapshot)
    (hok : SnapsOk m snaps) :
    SnapsOk (entriesSearchStep mode value max ibs te env m snaps).1
      (entriesSearchStep mode value max ibs te env m snaps).2.1 := by
  unfold entriesSearchStep
  have hfold := batchesFold_snapsOk te max hmax
    (searchTokensWithLiveViewProgressive mode value (max - m.length) ibs
      env.pages).batches m snaps hok
  exact snapsOk_weaken hfold (applyBatch_length_ge _ _)

theorem entriesLoop_snapsOk (max ibs : Nat) (te : Int) (hmax : 1 ≤ max) :
    ∀ (todo : List (SelectionItem × ItemEnv))
      (m : List (String × TokenEntry)) (snaps : List ProgressSnapshot)
      (logs : List QueryDesc),
      SnapsOk m snaps →
      SnapsOk (entriesLoop max ibs te todo m snaps logs).1
        (entriesLoop max ibs te todo m snaps logs).2.1 := by
  intro todo
  induction todo with
  | nil =>
    intro m snaps logs hok
    exact hok
  | cons p rest ih =>
    obtain ⟨it, env⟩ := p
    intro m snaps logs hok
    cases hty : it.type with
    | token =>
      simp only [entriesLoop, hty]
      cases hh : (tokensByIdWithLiveView [it.value] 1
          [(env.tokenResp, env.tokenResp)]).1.head? with
      | none =>
        simp only
        split
        · exact hok
        · exact ih m snaps _ hok
      | some e =>
        simp only
        have hok2 := snapsOk_append te hmax hok
          (mapSet_length_ge m it.value e)
        split
        · exact hok2
        · exact ih _ _ _ hok2
    | artist =>
      simp only [entriesLoop, hty]
      cases hsplit : entriesSearchStep (toSearchMode .artist) it.value max ibs
        te env m snaps with
      | mk m2 rest2 =>
        have hok2 := entriesSearchStep_snapsOk (toSearchMode .artist) it.value
          max ibs te env hmax m snaps hok
        rw [hsplit] at hok2
        split
        · exact hok2
        · exact ih m2 rest2.1 _ hok2
    | project =>
      simp only [entriesLoop, hty]
      cases hsplit : entriesSearchStep (toSearchMode .project) it.value max ibs
        te env m snaps with
      | mk m2 rest2 =>
        have hok2 := entriesSearchStep_snapsOk (toSearchMode .project) it.value
          max ibs te env hmax m snaps hok
        rw [hsplit] at hok2
        split
        · exact hok2
        · exact ih m2 rest2.1 _ hok2
    | collector =>
      simp only [entriesLoop, hty]
      cases hsplit : entriesSearchStep (toSearchMode .collector) it.value max
        ibs te env m snaps with
      | mk m2 rest2 =>
        have hok2 := entriesSearchStep_snapsOk (toSearchMode .collector)
          it.value max ibs te env hmax m snaps hok
        rw [hsplit] at hok2
        split
        · exact hok2
        · exact ih m2 rest2.1 _ hok2

/-- C5.  Within one `resolveSelectionToTokenEntries` run, consecutive
progress snapshots have non-decreasing `loaded`, and every snapshot's
`percentage` lies in `[0, 100]`.  The hypothesis `1 ≤ max` excludes the
degenerate `max = 0` call, where the JS computes `0/0 = NaN` for the initial
percentage — a value outside the rational model. -/
theorem C5_progress_monotone (items : List (SelectionItem × ItemEnv))
    (max ibs : Nat) (hmax : 1 ≤ max) :
    List.Chain' (fun a b => a.loaded ≤ b.loaded)
      (resolveSelectionToTokenEntries items max ibs).snapshots ∧
    ∀ s ∈ (resolveSelectionToTokenEntries items max ibs).snapshots,
      0 ≤ s.percentage ∧ s.percentage ≤ 100 := by
  unfold resolveSelectionToTokenEntries
  cases hloop : entriesLoop max ibs (totalExpectedOf items).1 items []
      [mkProgress (totalExpectedOf items).1 max []] (totalExpectedOf items).2
    with
  | mk m rest =>
    have hinit : SnapsOk []
        [mkProgress (totalExpectedOf items).1 max []] := by
      refine ⟨List.chain'_singleton _, ?_, ?_⟩
      · intro s hs
        have : s = mkProgress (totalExpectedOf items).1 max [] := by
          simpa using hs
        rw [this, mkProgress_loaded]
      · intro s hs
        have : s = mkProgress (totalExpectedOf items).1 max [] := by
          simpa using hs
        rw [this]
        exact mkProgress_pct_bounds _ max [] hmax
    have := entriesLoop_snapsOk max ibs (totalExpectedOf items).1 hmax items
      [] [mkProgress (totalExpectedOf items).1 max []]
      (totalExpectedOf items).2 hinit
    rw [hloop] at this
    exact ⟨this.1, this.2.2⟩

/-- Witness for `C5_progress_monotone` on a concrete two-item run (a project
page followed by a token item). -/
theorem C5_progress_monotone_witness :
    1 ≤ 100 ∧
    (List.Chain' (fun a b => a.loaded ≤ b.loaded)
      (resolveSelectionToTokenEntries
        [((⟨SelKind.project, "P"⟩ : SelectionItem),
          (⟨some 4, [some [{ emptyRow with token_id := some "42", contract_address := some "0xaaaa" }]], none⟩ : ItemEnv)),
         ((⟨SelKind.token, "9"⟩ : SelectionItem),
          (⟨none, [], some [{ emptyRow with token_id := some "9", id := some "0xc-9" }]⟩ : ItemEnv))]
        100 500).snapshots ∧
    ∀ s ∈ (resolveSelectionToTokenEntries
        [((⟨SelKind.project, "P"⟩ : SelectionItem),
          (⟨some 4, [some [{ emptyRow with token_id := some "42", contract_address := some "0xaaaa" }]], none⟩ : ItemEnv)),
         ((⟨SelKind.token, "9"⟩ : SelectionItem),
          (⟨none, [], some [{ emptyRow with token_id := some "9", id := some "0xc-9" }]⟩ : ItemEnv))]
        100 500).snapshots,
      0 ≤ s.percentage ∧ s.percentage ≤ 100) :=
  ⟨by decide, C5_progress_monotone _ 100 500 (by decide)⟩
